import Mathlib

/-!
Verification of the offline-first synchronization engine and the payment
allocation algorithm of the jirawala-estimator repository.

The definitions below are a shallow embedding of
`src/services/storageService.ts` (the later of the two revisions contained in
that file, the one that carries the `isSyncing` in-flight flag; all line
numbers refer to that revision).  The browser's `localStorage` together with
the module-level mutable variables is modelled as an explicit `EngineState`
record that every operation threads through.  Network I/O is modelled by
passing the outcome of each HTTP request (`FetchOutcome` / `PushOutcome`) as
an oracle argument, and subscriber/status callbacks are modelled as an emitted
list of `SyncEvent`s.  JavaScript numbers holding money amounts are modelled
as rationals (`ℚ`); timestamps (`Date.now()`, the logical clock) are naturals.
`crypto.randomUUID()` is modelled by an id supply `uuid : Nat → String`
indexed by the order of the calls made during one operation.

The record types mirror `src/types.ts` extended with the payment fields used
by `storageService.ts` (`paymentStatus`, `paymentHistory`, `amountPaid`) and
spec §3 (`PaymentEntry`); `EstimateRecord.date` is an ISO date string in the
source that is only ever consumed through `new Date(...).getTime()`, so it is
modelled directly as its parsed epoch-millisecond value.
-/

/-- Payment status of an estimate record, `'unpaid' | 'partial' | 'paid'`;
the source's `'partial'` is rendered `partiallyPaid` here because that word
is reserved in Lean. -/
inductive PaymentStatus
  | unpaid
  | partiallyPaid
  | paid
deriving DecidableEq, Repr, Inhabited

/-- Workflow status of an estimate record, `'draft' | 'confirmed'`. -/
inductive EstimateStatus
  | draft
  | confirmed
deriving DecidableEq, Repr, Inhabited

/-- Sync status union of `storageService.ts` line 556. -/
inductive SyncStatus
  | offline
  | syncing
  | synced
  | error
deriving DecidableEq, Repr, Inhabited

/-- Inventory item (`src/types.ts`, plus the `stock` field used by
`storageService.ts`). -/
structure InventoryItem where
  id : String
  productName : String
  vendor : String
  date : String
  mrp : ℚ
  purchaseDiscountPercent : ℚ
  gstPercent : ℚ
  landingPrice : ℚ
  stock : ℚ
  note : Option String
deriving DecidableEq, Repr, Inhabited

/-- Line item of an estimate (`src/types.ts`). -/
structure EstimateItem where
  id : String
  inventoryId : Option String
  productName : String
  mrp : ℚ
  gstPercent : ℚ
  landingPrice : ℚ
  purchaseDiscountPercent : ℚ
  marginPercent : ℚ
  sellingBasic : ℚ
  quantity : ℚ
deriving DecidableEq, Repr, Inhabited

/-- Customer snapshot stored on an estimate record (`src/types.ts`). -/
structure CustomerProfile where
  name : String
  firmName : Option String
  phone : String
  address : String
  gstin : String
deriving DecidableEq, Repr, Inhabited

/-- One recorded payment (spec §3; fields as used by `addPaymentToEstimate`). -/
structure PaymentEntry where
  id : String
  amount : ℚ
  date : String
  note : String
deriving DecidableEq, Repr, Inhabited

/-- Additional charges block of an estimate record (`src/types.ts`). -/
structure AdditionalCharges where
  packing : ℚ
  shipping : ℚ
  adjustment : ℚ
deriving DecidableEq, Repr, Inhabited

/-- Estimate/order record (`src/types.ts` plus the payment fields used by
`storageService.ts`).  `date` is the record's ISO date string modelled as its
parsed epoch-millisecond value, since the source only reads it through
`new Date(e.date).getTime()`. -/
structure EstimateRecord where
  id : String
  invoiceNumber : Option String
  date : Nat
  lastModified : Nat
  status : EstimateStatus
  customer : CustomerProfile
  items : List EstimateItem
  additionalCharges : AdditionalCharges
  paymentStatus : PaymentStatus
  paymentHistory : Option (List PaymentEntry)
  amountPaid : Option ℚ
deriving DecidableEq, Repr, Inhabited

/-- Cloud configuration (`storageService.ts` lines 558-561). -/
structure CloudConfig where
  workerUrl : String
  accessToken : String
deriving DecidableEq, Repr, Inhabited

/-- The sync envelope (`SyncPayload`, `storageService.ts` lines 563-567). -/
structure SyncPayload where
  inventory : List InventoryItem
  estimates : List EstimateRecord
  timestamp : Nat
deriving DecidableEq, Repr, Inhabited

/-- Explicit model of the browser `localStorage` keys used by the engine
together with the module-level `isSyncing` flag (lines 569-574).  The four
storage keys hold the inventory list, the estimates list, the cloud
configuration and the last-sync logical clock; a missing clock key reads as
`0` via `parseInt(... || "0")`, so the clock is stored here directly as a
natural number. -/
structure EngineState where
  inventory : List InventoryItem
  estimates : List EstimateRecord
  lastSyncTS : Nat
  config : Option CloudConfig
  isSyncing : Bool
deriving DecidableEq, Repr, Inhabited

/-- Shape of the body of an HTTP response as seen by the client after
`response.json()`: a well-formed sync envelope, the worker's health-check
object (`{status: "Online", message: ..., no inventory}`, lines 809-812), or
a body that is not JSON at all (`response.json()` rejects with `parseMsg`). -/
inductive BodyShape
  | envelope (p : SyncPayload)
  | healthCheckBody
  | notJson (parseMsg : String)
deriving DecidableEq, Repr, Inhabited

/-- Raw outcome of one `fetch` GET as supplied by the environment:
the request fails at the network level (`TypeError: Failed to fetch`), is
aborted by the 8-second timeout controller (`AbortError`), or yields a
response with a status code, a content-type that may be `text/html`, and a
body. -/
inductive FetchOutcome
  | networkFail
  | timeout
  | response (status : Nat) (contentTypeHtml : Bool) (body : BodyShape)
deriving DecidableEq, Repr, Inhabited

/-- Raw outcome of one `fetch` PUT: network failure or a response status. -/
inductive PushOutcome
  | networkFail
  | response (status : Nat)
deriving DecidableEq, Repr, Inhabited

/-- Observable effects of an engine operation: subscriber callbacks
(`inventoryListener`, `estimatesListener`, `notifyStatus`) and the HTTP
requests actually issued (one `fetched`/`pushed` event per network round
trip). -/
inductive SyncEvent
  | statusNotified (s : SyncStatus) (msg : String)
  | invNotified (items : List InventoryItem)
  | estNotified (ests : List EstimateRecord)
  | fetched (outcome : FetchOutcome)
  | pushed (payload : SyncPayload)
deriving DecidableEq, Repr, Inhabited

/-- JavaScript `String.prototype.startsWith`, computed on the character
sequence. -/
def jsStartsWith (s pre : String) : Bool :=
  pre.data.isPrefixOf s.data

/-- JavaScript `String.prototype.toLowerCase`, computed on the character
sequence. -/
def jsToLower (s : String) : String :=
  String.mk (s.data.map Char.toLower)

/-- Whitespace as trimmed by JavaScript `String.prototype.trim`. -/
def isWSChar (c : Char) : Bool :=
  c = ' ' || c = '\t' || c = '\n' || c = '\r'

/-- JavaScript `String.prototype.trim`, computed on the character
sequence. -/
def jsTrim (s : String) : String :=
  String.mk (((s.data.dropWhile isWSChar).reverse.dropWhile isWSChar).reverse)

/-- JavaScript `a || b` on strings: the empty string is falsy. -/
def jsOr (a b : String) : String :=
  if a = "" then b else a

/-- JavaScript `a || b` where `a` is an optional string (absent or empty
falls through to `b`). -/
def jsOrOpt (a : Option String) (b : String) : String :=
  jsOr (a.getD "") b

/-- Clock advance, `touchLocalData` (lines 740-747): read the persisted
clock, step to `max(Date.now(), stored + 1)`, persist and return it. -/
def touchLocalData (now : Nat) (st : EngineState) : Nat × EngineState :=
  let storedTS := st.lastSyncTS
  let next := max now (storedTS + 1)
  (next, { st with lastSyncTS := next })

/-- Outputs of a sequence of `touchLocalData` calls starting from `st`, one
call per wall-clock reading in `nows`.  Restarts/reloads need no separate
model step: the clock is read back from the persisted `lastSyncTS` field on
every call. -/
def tickTrace (st : EngineState) : List Nat → List Nat
  | [] => []
  | now :: rest =>
    let (r, st') := touchLocalData now st
    r :: tickTrace st' rest

/-- An error value caught by a `catch` block: the JavaScript error's `name`
and `message`.  Network failures are `TypeError: Failed to fetch`, the
timeout controller raises `AbortError`, and every `throw new Error(msg)` in
the source has name `"Error"`. -/
structure CaughtErr where
  name : String
  message : String
deriving DecidableEq, Repr, Inhabited

/-- The `response.ok` predicate: HTTP status in the 2xx range. -/
def respOk (status : Nat) : Bool :=
  200 ≤ status && status < 300

/-- The response gauntlet of `syncData` (lines 775-815): html content type,
non-ok statuses, JSON parsing, and the health-check safety net, in source
order.  On the 500 branch the source's inner
`throw new Error("Server Error: " + errBody.error)` sits inside a
`try { ... } catch(e) {}` whose empty catch swallows it, so every 500
response ends up as `"Server Error 500 (Check KV Binding)"`. -/
def interpretFetchResponse : FetchOutcome → Except CaughtErr SyncPayload
  | .networkFail => .error ⟨"TypeError", "Failed to fetch"⟩
  | .timeout => .error ⟨"AbortError", "The user aborted a request."⟩
  | .response status html body =>
    if html then
      .error ⟨"Error", "Incorrect URL. Worker returned HTML (Expected JSON)."⟩
    else if !respOk status then
      if status = 401 then .error ⟨"Error", "Unauthorized (Check Token)"⟩
      else if status = 404 then .error ⟨"Error", "Worker 404 (Check URL)"⟩
      else if status = 500 then .error ⟨"Error", "Server Error 500 (Check KV Binding)"⟩
      else .error ⟨"Error", "Server Error " ++ toString status⟩
    else
      match body with
      | .notJson m => .error ⟨"SyntaxError", m⟩
      | .healthCheckBody => .error ⟨"Error", "Sync Error: Worker returned Status instead of Data."⟩
      | .envelope p => .ok p

/-- Error classification of the `catch` block of `syncData` (lines 831-838):
a human-readable message derived from the caught error. -/
def classifyCatch (e : CaughtErr) : String :=
  if e.name = "AbortError" then "Connection Timeout"
  else if e.message.containsSubstr "Failed to fetch".toSubstring then
    "Network/CORS Error (Update Worker Code)"
  else if e.message.containsSubstr "Incorrect URL".toSubstring then
    "Bad URL (HTML)"
  else e.message

/-- Outcome of the PUT issued by `pushToCloud` (lines 863-874): any non-ok
status throws `Save Failed: <status>`. -/
def interpretPushResponse : PushOutcome → Except CaughtErr Unit
  | .networkFail => .error ⟨"TypeError", "Failed to fetch"⟩
  | .response status =>
    if !respOk status then .error ⟨"Error", "Save Failed: " ++ toString status⟩
    else .ok ()

/-- Whole-snapshot application of a remote envelope, `applyRemoteData`
(lines 846-853): replace the three persisted keys verbatim and notify both
data subscribers. -/
def applyRemoteData (st : EngineState) (data : SyncPayload) : EngineState × List SyncEvent :=
  ({ st with
      inventory := data.inventory
      estimates := data.estimates
      lastSyncTS := data.timestamp },
   [SyncEvent.invNotified data.inventory, SyncEvent.estNotified data.estimates])

/-- Upload of the local snapshot, `pushToCloud` (lines 855-875): read the
persisted snapshot and clock, PUT them as one envelope; the `pushed` event
records the attempted round trip with its payload. -/
def pushToCloud (st : EngineState) (pushO : PushOutcome) :
    Except CaughtErr Unit × List SyncEvent :=
  (interpretPushResponse pushO,
   [SyncEvent.pushed ⟨st.inventory, st.estimates, st.lastSyncTS⟩])

/-- The reconcile operation, `syncData` (lines 749-844).

Control flow in source order: the `isSyncing` mutual-exclusion guard, the
offline check (`!config || !config.workerUrl`), setting the in-flight flag,
the URL-protocol check, the GET (outcome supplied by the `fetchO` oracle),
then the three-way clock comparison driving pull / push / no-op; every
failure is caught, classified by `classifyCatch`, and reported as an `error`
status; the `finally` block clears the in-flight flag.  The delayed 500 ms
spinner notification (line 759) fires only when the request is still pending
after half a second and is always cancelled in `finally`; being purely a
timing artefact it is not part of this model. -/
def syncData (st : EngineState) (fetchO : FetchOutcome) (pushO : PushOutcome) :
    EngineState × List SyncEvent :=
  if st.isSyncing then (st, [])
  else
    match st.config with
    | none => (st, [SyncEvent.statusNotified .offline "Local Mode"])
    | some config =>
      if config.workerUrl = "" then (st, [SyncEvent.statusNotified .offline "Local Mode"])
      else
        let st1 : EngineState := { st with isSyncing := true }
        let localTimestamp := st1.lastSyncTS
        if !jsStartsWith config.workerUrl "http" then
          ({ st1 with isSyncing := false },
           [SyncEvent.statusNotified .error (classifyCatch ⟨"Error", "Invalid URL Protocol"⟩)])
        else
          match interpretFetchResponse fetchO with
          | .error e =>
            ({ st1 with isSyncing := false },
             [SyncEvent.fetched fetchO, SyncEvent.statusNotified .error (classifyCatch e)])
          | .ok remoteData =>
            let remoteTimestamp := remoteData.timestamp
            if remoteTimestamp > localTimestamp then
              let (st2, evs) := applyRemoteData st1 remoteData
              ({ st2 with isSyncing := false },
               SyncEvent.fetched fetchO :: evs ++ [SyncEvent.statusNotified .synced "Loaded from Cloud"])
            else if localTimestamp > remoteTimestamp then
              let (pres, pevs) := pushToCloud st1 pushO
              match pres with
              | .ok _ =>
                ({ st1 with isSyncing := false },
                 SyncEvent.fetched fetchO :: pevs ++ [SyncEvent.statusNotified .synced "Saved to Cloud"])
              | .error e =>
                ({ st1 with isSyncing := false },
                 SyncEvent.fetched fetchO :: pevs ++ [SyncEvent.statusNotified .error (classifyCatch e)])
            else
              ({ st1 with isSyncing := false },
               [SyncEvent.fetched fetchO, SyncEvent.statusNotified .synced "Up to date"])

/-- Manual force upload, `forceUploadToCloud` (lines 879-887): advance the
clock first, then push unconditionally.  Unlike `syncData` this operation has
no catch block; the third component carries the error message thrown to the
caller, if any. -/
def forceUploadToCloud (now : Nat) (st : EngineState) (pushO : PushOutcome) :
    EngineState × List SyncEvent × Option String :=
  match st.config with
  | none => (st, [], some "Not configured")
  | some _ =>
    let (_, st1) := touchLocalData now st
    let (pres, pevs) := pushToCloud st1 pushO
    match pres with
    | .ok _ =>
      (st1, SyncEvent.statusNotified .syncing "Force Uploading..." ::
        pevs ++ [SyncEvent.statusNotified .synced "Force Upload Complete"], none)
    | .error e =>
      (st1, SyncEvent.statusNotified .syncing "Force Uploading..." :: pevs, some e.message)

/-- Manual force download, `forceDownloadFromCloud` (lines 889-914): GET the
remote envelope and apply it verbatim with no clock comparison.  The only
response checks are `response.ok` (any failure throws `"Download Failed"`),
JSON parsing, and the health-check safety net; unlike `syncData` there is no
content-type check and no abort controller, so a hung or failed request
surfaces as the raw fetch failure.  Errors are thrown to the caller (third
component). -/
def forceDownloadFromCloud (st : EngineState) (fetchO : FetchOutcome) :
    EngineState × List SyncEvent × Option String :=
  match st.config with
  | none => (st, [], some "Not configured")
  | some _ =>
    let evs0 := [SyncEvent.statusNotified .syncing "Force Downloading...", SyncEvent.fetched fetchO]
    match fetchO with
    | .networkFail => (st, evs0, some "Failed to fetch")
    | .timeout => (st, evs0, some "Failed to fetch")
    | .response status _ body =>
      if !respOk status then (st, evs0, some "Download Failed")
      else
        match body with
        | .notJson m => (st, evs0, some m)
        | .healthCheckBody => (st, evs0, some "Worker returned Status, not Data")
        | .envelope p =>
          let (st1, evs1) := applyRemoteData st p
          (st1, evs0 ++ evs1 ++ [SyncEvent.statusNotified .synced "Force Download Complete"], none)

/-- One engine operation touching the persisted clock: a local mutation (all
mutation paths call `touchLocalData` before syncing), a reconcile, a force
upload, or a force download.  Network outcomes ride along as oracles. -/
inductive EngineOp
  | mutateTouch (now : Nat)
  | sync (fetchO : FetchOutcome) (pushO : PushOutcome)
  | forceUp (now : Nat) (pushO : PushOutcome)
  | forceDown (fetchO : FetchOutcome)
deriving DecidableEq, Repr, Inhabited

/-- State transition plus emitted events of one engine operation. -/
def engineStepEv (st : EngineState) : EngineOp → EngineState × List SyncEvent
  | .mutateTouch now => ((touchLocalData now st).2, [])
  | .sync f p => syncData st f p
  | .forceUp now p =>
    let r := forceUploadToCloud now st p
    (r.1, r.2.1)
  | .forceDown f =>
    let r := forceDownloadFromCloud st f
    (r.1, r.2.1)

/-- State transition of one engine operation. -/
def engineStep (st : EngineState) (op : EngineOp) : EngineState :=
  (engineStepEv st op).1

/-- Timestamp of a remote envelope carried by a successfully parsed GET
event (ok status, non-html content type, envelope body); `none` for every
other event. -/
def fetchedEnvTS : SyncEvent → Option Nat
  | .fetched (.response s false (.envelope p)) => if respOk s then some p.timestamp else none
  | _ => none

/-- Timestamps observed by one operation: the wall-clock reading consumed by
a clock advance, and the timestamp of any remote envelope the operation
fetched and successfully parsed. -/
def stepObservedTS (st : EngineState) (op : EngineOp) : List Nat :=
  (match op with
   | .mutateTouch now => [now]
   | .forceUp now _ => if st.config.isSome then [now] else []
   | _ => []) ++
  ((engineStepEv st op).2.filterMap fetchedEnvTS)

/-- Run a sequence of engine operations. -/
def runTrace (st : EngineState) : List EngineOp → EngineState
  | [] => st
  | op :: rest => runTrace (engineStep st op) rest

/-- All timestamps observed along a run. -/
def traceObservedTS (st : EngineState) : List EngineOp → List Nat
  | [] => []
  | op :: rest => stepObservedTS st op ++ traceObservedTS (engineStep st op) rest

/-- Recognizer for the force-download operation. -/
def EngineOp.isForceDown : EngineOp → Bool
  | .forceDown _ => true
  | _ => false

/-- Result of `calculateDue` (lines 1107-1112). -/
structure DueStats where
  total : ℚ
  paid : ℚ
  due : ℚ
deriving DecidableEq, Repr, Inhabited

/-- Totals of one record (lines 1107-1112): `total` sums
`sellingBasic * (1 + gstPercent/100) * quantity` over the line items plus the
three additional charges; `paid` is the payment-history sum when a history
array is present (even an empty one), else the cached `amountPaid`. -/
def calculateDue (est : EstimateRecord) : DueStats :=
  let total :=
    est.items.foldl (fun s i => s + i.sellingBasic * (1 + i.gstPercent / 100) * i.quantity) 0
      + est.additionalCharges.adjustment + est.additionalCharges.packing
      + est.additionalCharges.shipping
  let paid :=
    match est.paymentHistory with
    | some h => h.foldl (fun s p => s + p.amount) 0
    | none => est.amountPaid.getD 0
  ⟨total, paid, total - paid⟩

/-- Customer identity key (line 1096):
`(c.firmName || c.name || '').toLowerCase().trim() + (c.phone || '').trim()`. -/
def getCustKey (c : CustomerProfile) : String :=
  jsTrim (jsToLower (jsOr (jsOrOpt c.firmName c.name) "")) ++ jsTrim (jsOr c.phone "")

/-- An estimate record paired with its index in the stored list, the
`{ ...e, originalIndex: i }` spread of line 1100. -/
structure IndexedEstimate where
  est : EstimateRecord
  originalIndex : Nat
deriving DecidableEq, Repr, Inhabited

/-- Insertion of one element into an ascending-by-date list, placing it after
every element whose date is less than or equal to its own. -/
def insertByDate (x : IndexedEstimate) : List IndexedEstimate → List IndexedEstimate
  | [] => [x]
  | y :: ys => if y.est.date ≤ x.est.date then y :: insertByDate x ys else x :: y :: ys

/-- Stable ascending sort by record date, modelling
`.sort((a, b) => new Date(a.date).getTime() - new Date(b.date).getTime())`
(line 1102; `Array.prototype.sort` is stable). -/
def sortByDateAsc (l : List IndexedEstimate) : List IndexedEstimate :=
  l.foldl (fun acc x => insertByDate x acc) []

/-- The candidate list of lines 1099-1102: every stored record indexed by
position, restricted to confirmed records of the target's customer key, in
ascending date order. -/
def customerEstimatesIndices (estimates : List EstimateRecord) (targetCustKey : String) :
    List IndexedEstimate :=
  sortByDateAsc
    ((estimates.enum.map fun p => IndexedEstimate.mk p.2 p.1).filter
      fun x => decide (x.est.status = EstimateStatus.confirmed
        ∧ getCustKey x.est.customer = targetCustKey))

/-- The oldest-first allocation loop of lines 1134-1156, as structural
recursion over the sorted candidate snapshots.  The accumulator carries the
current estimates list, the remaining amount, and the index of the next
`crypto.randomUUID()` call.  Per iteration: skip the target by id, read the
candidate's dues from its pre-call snapshot, and when its due exceeds the
1-unit tolerance append one entry of `min(due, remaining)` to the record at
its original index, bump the `amountPaid` cache, recompute the status from
that cache against the snapshot total, stamp `lastModified`, and stop once
nothing remains. -/
def applyToOthers (uuid : Nat → String) (nowMs : Nat) (payment : PaymentEntry)
    (userNote : String) (targetId : String) :
    List IndexedEstimate → List EstimateRecord → ℚ → Nat →
    List EstimateRecord × ℚ × Nat
  | [], estimates, remaining, uuidIdx => (estimates, remaining, uuidIdx)
  | o :: rest, estimates, remaining, uuidIdx =>
    if o.est.id = targetId then
      applyToOthers uuid nowMs payment userNote targetId rest estimates remaining uuidIdx
    else
      let stats := calculateDue o.est
      if stats.due > 1 then
        let pay := min stats.due remaining
        let newEntry : PaymentEntry :=
          { payment with
              amount := pay
              id := uuid uuidIdx
              note := userNote ++ "Cleared Inv#" ++ jsOrOpt o.est.invoiceNumber "Old Dues" }
        let est := estimates.getD o.originalIndex default
        let newPaid := est.amountPaid.getD 0 + pay
        let est' : EstimateRecord :=
          { est with
              paymentHistory := some (est.paymentHistory.getD [] ++ [newEntry])
              amountPaid := some newPaid
              paymentStatus := if newPaid ≥ stats.total - 1 then .paid else .partiallyPaid
              lastModified := nowMs }
        let estimates' := estimates.set o.originalIndex est'
        let remaining' := remaining - pay
        if remaining' ≤ 0 then (estimates', remaining', uuidIdx + 1)
        else applyToOthers uuid nowMs payment userNote targetId rest estimates' remaining' (uuidIdx + 1)
      else
        applyToOthers uuid nowMs payment userNote targetId rest estimates remaining uuidIdx

/-- Phase 1 of the allocation (lines 1114-1132): when the target invoice
still has positive due, pay it `min(due, amount)`, append the history entry
tagged with the target's invoice number, recompute the cache and status from
the updated record, and stamp `lastModified`; the returned triple carries the
updated list, the remaining amount, and the next `crypto.randomUUID()` call
index. -/
def payTargetStep (uuid : Nat → String) (nowMs : Nat) (estimates : List EstimateRecord)
    (targetIdx : Nat) (payment : PaymentEntry) (userNote : String) :
    List EstimateRecord × ℚ × Nat :=
  let targetEst := estimates.getD targetIdx default
  let targetStats := calculateDue targetEst
  if targetStats.due > 0 then
    let pay := min targetStats.due payment.amount
    if pay > 0 then
      let newEntry : PaymentEntry :=
        { payment with
            amount := pay
            id := uuid 0
            note := userNote ++ "Inv#" ++ jsOrOpt targetEst.invoiceNumber "Ref" ++ " Payment" }
      let est := estimates.getD targetIdx default
      let est1 : EstimateRecord :=
        { est with paymentHistory := some (est.paymentHistory.getD [] ++ [newEntry]) }
      let newStats := calculateDue est1
      let est2 : EstimateRecord :=
        { est1 with
            amountPaid := some newStats.paid
            paymentStatus := if newStats.paid ≥ newStats.total - 1 then .paid else .partiallyPaid
            lastModified := nowMs }
      (estimates.set targetIdx est2, payment.amount - pay, 1)
    else (estimates, payment.amount, 0)
  else (estimates, payment.amount, 0)

/-- Phase 3 of the allocation (lines 1158-1171): when an amount remains
after the target and all other dues, book it back onto the target as an
"Advance / Credit" entry, refresh the cache from the history, force the
status to `paid`, and stamp `lastModified`. -/
def advanceStep (uuid : Nat → String) (nowMs : Nat) (payment : PaymentEntry)
    (userNote : String) (targetIdx : Nat) (step2 : List EstimateRecord × ℚ × Nat) :
    List EstimateRecord :=
  if step2.2.1 > 0 then
    let est := step2.1.getD targetIdx default
    let newEntry : PaymentEntry :=
      { payment with
          amount := step2.2.1
          id := uuid step2.2.2
          note := userNote ++ "Advance / Credit" }
    let est1 : EstimateRecord :=
      { est with paymentHistory := some (est.paymentHistory.getD [] ++ [newEntry]) }
    let newStats := calculateDue est1
    let est2 : EstimateRecord :=
      { est1 with
          amountPaid := some newStats.paid
          paymentStatus := PaymentStatus.paid
          lastModified := nowMs }
    step2.1.set targetIdx est2
  else step2.1

/-- The payment allocation algorithm, the estimates-list transformation
performed by `addPaymentToEstimate` (lines 1090-1171): find the target by
id (returning the list unchanged when absent, line 1093), gather the sorted
same-customer candidates, then run phase 1 (`payTargetStep`), phase 2
(`applyToOthers`, entered only when an amount remains), and phase 3
(`advanceStep`).  `uuid n` is the value of the n-th `crypto.randomUUID()`
call and `nowMs` the value of `Date.now()`. -/
def addPaymentCore (uuid : Nat → String) (nowMs : Nat) (estimates : List EstimateRecord)
    (targetEstId : String) (payment : PaymentEntry) : List EstimateRecord :=
  let targetIdx := estimates.findIdx fun e => decide (e.id = targetEstId)
  if targetIdx < estimates.length then
    let targetEst := estimates.getD targetIdx default
    let targetCustKey := getCustKey targetEst.customer
    let snaps := customerEstimatesIndices estimates targetCustKey
    let userNote := if payment.note ≠ "" then payment.note ++ " - " else ""
    let step1 := payTargetStep uuid nowMs estimates targetIdx payment userNote
    let step2 : List EstimateRecord × ℚ × Nat :=
      if step1.2.1 > 0 then
        applyToOthers uuid nowMs payment userNote targetEst.id snaps step1.1 step1.2.1 step1.2.2
      else step1
    advanceStep uuid nowMs payment userNote targetIdx step2
  else estimates

/-- The full `addPaymentToEstimate` operation (lines 1090-1178): when the
target id is found, run the allocation on the stored list, persist it,
notify the estimates subscriber, advance the clock via `touchLocalData`,
notify a syncing status and reconcile via `syncData`; when the target id is
missing, return before any of that (line 1093).  The guard reuses the same
`findIdx` test that `addPaymentCore` short-circuits on. -/
def addPaymentToEstimate (uuid : Nat → String) (nowMs : Nat) (st : EngineState)
    (targetEstId : String) (payment : PaymentEntry)
    (fetchO : FetchOutcome) (pushO : PushOutcome) : EngineState × List SyncEvent :=
  let estimates := st.estimates
  let targetIdx := estimates.findIdx fun e => decide (e.id = targetEstId)
  if targetIdx < estimates.length then
    let ests' := addPaymentCore uuid nowMs estimates targetEstId payment
    let st1 : EngineState := { st with estimates := ests' }
    let (_, st2) := touchLocalData nowMs st1
    let (st3, evs) := syncData st2 fetchO pushO
    (st3, SyncEvent.estNotified ests' :: SyncEvent.statusNotified .syncing "Saving Payment..." :: evs)
  else (st, [])

/-- Payment-history amounts of one record. -/
def histAmounts (e : EstimateRecord) : List ℚ :=
  (e.paymentHistory.getD []).map PaymentEntry.amount

/-- Number of recorded payment entries of one record. -/
def histLen (e : EstimateRecord) : Nat :=
  (e.paymentHistory.getD []).length

/-- Sum of all recorded payment amounts across a stored list. -/
def histTotal (l : List EstimateRecord) : ℚ :=
  (l.map fun e => (histAmounts e).sum).sum

/-! ### Common fixtures for witnesses and counterexamples -/

/-- A fresh engine state: empty stores, clock 0, no cloud configuration. -/
def emptyState : EngineState :=
  { inventory := [], estimates := [], lastSyncTS := 0, config := none, isSyncing := false }

/-- An engine state with a cloud configuration and clock 0. -/
def cfgState : EngineState :=
  { inventory := [], estimates := [], lastSyncTS := 0,
    config := some ⟨"https://w.example", "tok"⟩, isSyncing := false }

/-- Number of GET round trips recorded in an event list. -/
def fetchCount (evs : List SyncEvent) : Nat :=
  (evs.filter fun ev => match ev with | .fetched _ => true | _ => false).length

/-! ### Concrete allocation fixtures -/

/-- A fixed customer used by the concrete allocation scenarios. -/
def paCust : CustomerProfile :=
  { name := "Jane", firmName := some "Acme", phone := "9", address := "", gstin := "" }

/-- A single line item priced to give the record a prescribed total due
(GST 0, quantity 1). -/
def paItem (due : ℚ) : EstimateItem :=
  { id := "li", inventoryId := none, productName := "P", mrp := 0, gstPercent := 0,
    landingPrice := 0, purchaseDiscountPercent := 0, marginPercent := 0,
    sellingBasic := due, quantity := 1 }

/-- A confirmed record of the fixed customer with no payment history and a
prescribed date and due. -/
def paRec (rid : String) (inv : Option String) (dateMs : Nat) (due : ℚ) : EstimateRecord :=
  { id := rid, invoiceNumber := inv, date := dateMs, lastModified := 0,
    status := .confirmed, customer := paCust, items := [paItem due],
    additionalCharges := ⟨0, 0, 0⟩, paymentStatus := .unpaid,
    paymentHistory := none, amountPaid := none }

/-- A confirmed record like `paRec` whose prior payments live only in the
`amountPaid` cache: no payment history, items totalling `total`, cached
paid amount `cache` (so its due is `total - cache`). -/
def paRecCached (rid : String) (inv : Option String) (dateMs : Nat)
    (total cache : ℚ) : EstimateRecord :=
  { paRec rid inv dateMs total with amountPaid := some cache }

/-- A deterministic stand-in for the `crypto.randomUUID()` supply. -/
def uuidFix (n : Nat) : String :=
  "uuid-" ++ toString n

def paCust2 : CustomerProfile :=
  { name := "Bob", firmName := some "Globex", phone := "7", address := "", gstin := "" }

def paRecOther : EstimateRecord :=
  { paRec "X" (some "IX") 0 100 with customer := paCust2 }

def paRecDraft : EstimateRecord :=
  { paRec "D" (some "ID") 0 100 with status := EstimateStatus.draft }

def c7List (dt d1 d2 : ℚ) : List EstimateRecord :=
  [paRec "T" (some "IT") 0 dt, paRec "E1" (some "I1") 1 d1, paRec "E2" (some "I2") 2 d2,
   paRecOther, paRecDraft]

def c7Pay (amt : ℚ) : PaymentEntry :=
  { id := "p", amount := amt, date := "x", note := "" }

def c7T' (dt : ℚ) : EstimateRecord :=
  { paRec "T" (some "IT") 0 dt with
      lastModified := 99
      paymentStatus := PaymentStatus.paid
      paymentHistory := some [({ id := uuidFix 0, amount := dt, date := "x", note := "Inv#IT Payment" } : PaymentEntry)]
      amountPaid := some dt }

def c7E1' (d1 : ℚ) : EstimateRecord :=
  { paRec "E1" (some "I1") 1 d1 with
      lastModified := 99
      paymentStatus := PaymentStatus.paid
      paymentHistory := some [({ id := uuidFix 1, amount := d1, date := "x", note := "Cleared Inv#I1" } : PaymentEntry)]
      amountPaid := some d1 }

def c7E2' (d2 : ℚ) : EstimateRecord :=
  { paRec "E2" (some "I2") 2 d2 with
      lastModified := 99
      paymentStatus := PaymentStatus.partiallyPaid
      paymentHistory := some [({ id := uuidFix 2, amount := 1, date := "x", note := "Cleared Inv#I2" } : PaymentEntry)]
      amountPaid := some 1 }

/-! ### C1: behaviour of the clock advance -/

/-- Helper: every output of a tick sequence exceeds the starting clock. -/
theorem tickTrace_gt_start (nows : List Nat) :
    ∀ st : EngineState, ∀ r ∈ tickTrace st nows, st.lastSyncTS < r := by
  induction nows with
  | nil => intro st r hr; simp [tickTrace] at hr
  | cons now rest ih =>
    intro st r hr
    simp only [tickTrace, touchLocalData, List.mem_cons] at hr
    rcases hr with rfl | hr
    · omega
    · have := ih _ r hr
      simp only [touchLocalData] at this
      omega

/-- Helper: tick outputs are strictly increasing along any sequence. -/
theorem tickTrace_pairwise (nows : List Nat) :
    ∀ st : EngineState, (tickTrace st nows).Pairwise (· < ·) := by
  induction nows with
  | nil => intro st; simp [tickTrace]
  | cons now rest ih =>
    intro st
    simp only [tickTrace]
    refine List.Pairwise.cons ?_ (ih _)
    intro r hr
    have h := tickTrace_gt_start rest _ r hr
    simp only [touchLocalData] at h ⊢
    omega

/-- C1 (amended): `touchLocalData` returns a value that is at least "now"
(not in general strictly greater than it), strictly greater than the last
persisted clock value, and persists it; and across any sequence of calls
(reloads of persisted state are identities on the persisted clock) each
returned value is strictly greater than all previously returned values. -/
theorem C1_touchLocalData_amended (now : Nat) (st : EngineState) (nows : List Nat) :
    now ≤ (touchLocalData now st).1 ∧
    st.lastSyncTS < (touchLocalData now st).1 ∧
    ((touchLocalData now st).2).lastSyncTS = (touchLocalData now st).1 ∧
    (tickTrace st nows).Pairwise (· < ·) := by
  refine ⟨?_, ?_, ?_, tickTrace_pairwise nows st⟩ <;> simp [touchLocalData]

/-- C1 (counterexample): with persisted clock 0 and `Date.now() = 5`,
`touchLocalData` returns exactly 5, which is not strictly greater than
"now" — refuting the claim that the returned value strictly exceeds both
"now" and the persisted clock. -/
theorem C1_counterexample :
    (touchLocalData 5 emptyState).1 = 5 ∧ ¬ 5 < (touchLocalData 5 emptyState).1 := by
  decide

/-! ### C5: mutual exclusion of reconcile -/

/-- Helper: the in-flight flag after `syncData` equals the flag before the
call: a busy call leaves it set (and changes nothing else), a run that
actually starts always clears it in `finally`, on success and on failure
alike. -/
theorem syncData_isSyncing (st : EngineState) (f : FetchOutcome) (p : PushOutcome) :
    (syncData st f p).1.isSyncing = st.isSyncing := by
  unfold syncData
  simp only [pushToCloud]
  repeat' split
  all_goals simp_all [applyRemoteData]

/-- Helper: a reconcile entered while another is in flight is a complete
no-op: state unchanged, no events, no network request, nothing queued. -/
theorem syncData_busy (st : EngineState) (f : FetchOutcome) (p : PushOutcome)
    (h : st.isSyncing = true) : syncData st f p = (st, []) := by
  simp [syncData, h]

/-- Helper: any single `syncData` call issues at most one GET. -/
theorem syncData_fetchCount (st : EngineState) (f : FetchOutcome) (p : PushOutcome) :
    fetchCount (syncData st f p).2 ≤ 1 := by
  unfold syncData
  simp only [pushToCloud]
  repeat' split
  all_goals simp [applyRemoteData, fetchCount]

/-- C5: (a) a reconcile invoked while one is in flight returns immediately —
no state change, no events, hence no network traffic and no queued retry;
(b) a second reconcile arriving in the window where the first has set the
in-flight flag performs zero GETs, while any single reconcile performs at
most one, so two back-to-back reconciles cost at most one GET round trip;
(c) the in-flight flag always returns to its pre-call value when a reconcile
finishes — in particular a reconcile that starts with the flag clear ends
with it clear, whether it succeeds or fails.  (The errors of a failing run
are absorbed inside `syncData`, whose model is a total function.) -/
theorem C5_reconcile_mutual_exclusion (st : EngineState) (f f2 : FetchOutcome)
    (p p2 : PushOutcome) :
    (st.isSyncing = true → syncData st f p = (st, [])) ∧
    (syncData { st with isSyncing := true } f2 p2 = ({ st with isSyncing := true }, []) ∧
      fetchCount (syncData st f p).2 + fetchCount (syncData { st with isSyncing := true } f2 p2).2 ≤ 1) ∧
    (syncData st f p).1.isSyncing = st.isSyncing := by
  refine ⟨fun h => syncData_busy st f p h, ⟨?_, ?_⟩, syncData_isSyncing st f p⟩
  · exact syncData_busy _ f2 p2 rfl
  · have h1 := syncData_fetchCount st f p
    have h2 : syncData { st with isSyncing := true } f2 p2 = ({ st with isSyncing := true }, []) :=
      syncData_busy _ f2 p2 rfl
    rw [h2]
    simpa [fetchCount] using h1

/-- C5 (witness): the mutual-exclusion theorem applied to a concrete busy
state and concrete network outcomes. -/
theorem C5_reconcile_mutual_exclusion_witness :
    syncData { emptyState with isSyncing := true } FetchOutcome.networkFail (.response 200) =
      ({ emptyState with isSyncing := true }, []) := by
  have h := C5_reconcile_mutual_exclusion { emptyState with isSyncing := true }
    FetchOutcome.networkFail FetchOutcome.networkFail (.response 200) (.response 200)
  exact h.1 rfl

/-! ### C3: a pull replaces the whole snapshot verbatim -/

/-- C3: whenever a reconcile actually runs (not busy, a configured http
worker URL) and the fetched envelope carries a timestamp strictly greater
than the local clock, `syncData` replaces the local inventory, estimates and
clock verbatim with the remote snapshot, notifies both data subscribers with
exactly the remote lists, reports a `synced` status, and retains no
local-only record: every record in the resulting state comes from the pulled
snapshot. -/
theorem C3_pull_replaces_verbatim (st : EngineState) (cfg : CloudConfig) (p : SyncPayload)
    (status : Nat) (pushO : PushOutcome)
    (hbusy : st.isSyncing = false) (hcfg : st.config = some cfg)
    (hurl : jsStartsWith cfg.workerUrl "http" = true)
    (hok : respOk status = true)
    (hts : st.lastSyncTS < p.timestamp) :
    syncData st (.response status false (.envelope p)) pushO =
      ({ st with inventory := p.inventory, estimates := p.estimates,
                 lastSyncTS := p.timestamp, isSyncing := false },
       [SyncEvent.fetched (.response status false (.envelope p)),
        SyncEvent.invNotified p.inventory,
        SyncEvent.estNotified p.estimates,
        SyncEvent.statusNotified .synced "Loaded from Cloud"]) ∧
    (∀ e ∈ (syncData st (.response status false (.envelope p)) pushO).1.estimates,
      e ∈ p.estimates) ∧
    (∀ i ∈ (syncData st (.response status false (.envelope p)) pushO).1.inventory,
      i ∈ p.inventory) := by
  have hne : ¬ cfg.workerUrl = "" := by
    intro h
    rw [h] at hurl
    exact absurd hurl (by decide)
  have hmain : syncData st (.response status false (.envelope p)) pushO =
      ({ st with inventory := p.inventory, estimates := p.estimates,
                 lastSyncTS := p.timestamp, isSyncing := false },
       [SyncEvent.fetched (.response status false (.envelope p)),
        SyncEvent.invNotified p.inventory,
        SyncEvent.estNotified p.estimates,
        SyncEvent.statusNotified .synced "Loaded from Cloud"]) := by
    unfold syncData
    rw [hbusy, hcfg]
    simp only [Bool.false_eq_true, if_false, hne, ite_false, hurl, Bool.not_true,
      interpretFetchResponse, hok, if_neg, applyRemoteData]
    simp [hts]
  refine ⟨hmain, ?_, ?_⟩ <;> rw [hmain] <;> intro x hx <;> simpa using hx

/-- C3 (witness): the pull theorem applied at a concrete configured state
and a concrete remote envelope with a strictly newer timestamp. -/
theorem C3_pull_replaces_verbatim_witness :
    syncData cfgState (.response 200 false (.envelope ⟨[], [], 150⟩)) (.response 200) =
      ({ cfgState with inventory := [], estimates := [], lastSyncTS := 150, isSyncing := false },
       [SyncEvent.fetched (.response 200 false (.envelope ⟨[], [], 150⟩)),
        SyncEvent.invNotified [],
        SyncEvent.estNotified [],
        SyncEvent.statusNotified .synced "Loaded from Cloud"]) := by
  have h := C3_pull_replaces_verbatim cfgState ⟨"https://w.example", "tok"⟩ ⟨[], [], 150⟩
    200 (.response 200) rfl rfl (by decide) (by decide) (by decide)
  exact h.1

/-! ### C4: a failing reconcile reports `error` and leaves state untouched -/

/-- C4: whenever a reconcile actually runs and fails — the GET fails at the
network level, times out, returns an html content type, a non-2xx status, a
non-JSON or malformed body (including the health-check shape), or the pull
comparison chooses push and the PUT fails — `syncData` reports an `error`
status carrying the classified human-readable message and leaves the local
inventory, estimates and clock exactly as they were; the error is absorbed
inside `syncData` (a total function), never thrown to the caller of the
mutation that triggered the reconcile. -/
theorem C4_sync_error_leaves_state (st : EngineState) (cfg : CloudConfig)
    (f : FetchOutcome) (pushO : PushOutcome) (e : CaughtErr)
    (hbusy : st.isSyncing = false) (hcfg : st.config = some cfg)
    (hurl : jsStartsWith cfg.workerUrl "http" = true)
    (hfail : interpretFetchResponse f = .error e ∨
      (∃ env : SyncPayload, interpretFetchResponse f = .ok env ∧
        env.timestamp < st.lastSyncTS ∧ interpretPushResponse pushO = .error e)) :
    (syncData st f pushO).1.inventory = st.inventory ∧
    (syncData st f pushO).1.estimates = st.estimates ∧
    (syncData st f pushO).1.lastSyncTS = st.lastSyncTS ∧
    (syncData st f pushO).1.isSyncing = false ∧
    SyncEvent.statusNotified .error (classifyCatch e) ∈ (syncData st f pushO).2 := by
  have hne : ¬ cfg.workerUrl = "" := by
    intro h
    rw [h] at hurl
    exact absurd hurl (by decide)
  rcases hfail with hferr | ⟨env, hfok, hlt, hperr⟩
  · have hmain : syncData st f pushO =
        ({ st with isSyncing := false },
         [SyncEvent.fetched f, SyncEvent.statusNotified .error (classifyCatch e)]) := by
      unfold syncData
      rw [hbusy, hcfg]
      simp [hne, hurl, hferr]
    rw [hmain]
    simp
  · have hngt : ¬ env.timestamp > st.lastSyncTS := by omega
    have hmain : syncData st f pushO =
        ({ st with isSyncing := false },
         [SyncEvent.fetched f,
          SyncEvent.pushed ⟨st.inventory, st.estimates, st.lastSyncTS⟩,
          SyncEvent.statusNotified .error (classifyCatch e)]) := by
      unfold syncData
      rw [hbusy, hcfg]
      simp [hne, hurl, hfok, hngt, hlt, pushToCloud, hperr]
    rw [hmain]
    simp

/-- C4 (witness): the error theorem applied at a concrete configured state
with a concrete timed-out GET. -/
theorem C4_sync_error_leaves_state_witness :
    (syncData cfgState .timeout (.response 200)).1.inventory = cfgState.inventory ∧
    (syncData cfgState .timeout (.response 200)).1.estimates = cfgState.estimates ∧
    (syncData cfgState .timeout (.response 200)).1.lastSyncTS = cfgState.lastSyncTS ∧
    (syncData cfgState .timeout (.response 200)).1.isSyncing = false ∧
    SyncEvent.statusNotified .error (classifyCatch ⟨"AbortError", "The user aborted a request."⟩) ∈
      (syncData cfgState .timeout (.response 200)).2 :=
  C4_sync_error_leaves_state cfgState ⟨"https://w.example", "tok"⟩ .timeout (.response 200)
    ⟨"AbortError", "The user aborted a request."⟩ rfl rfl (by decide) (Or.inl rfl)

/-! ### C2: the persisted clock against observed timestamps -/

/-- Helper: a successfully parsed GET outcome is exactly an ok-status,
non-html response carrying an envelope body. -/
theorem interpretFetchResponse_ok (f : FetchOutcome) (env : SyncPayload)
    (h : interpretFetchResponse f = .ok env) :
    ∃ s, f = .response s false (.envelope env) ∧ respOk s = true := by
  cases f with
  | networkFail => exact absurd h (by simp [interpretFetchResponse])
  | timeout => exact absurd h (by simp [interpretFetchResponse])
  | response s html body =>
    refine ⟨s, ?_⟩
    unfold interpretFetchResponse at h
    by_cases hh : html = true
    · rw [hh] at h
      simp at h
    · simp only [Bool.not_eq_true] at hh
      subst hh
      simp only [Bool.false_eq_true, if_false] at h
      by_cases hr : respOk s = true
      · rw [hr] at h
        simp only [Bool.not_true, Bool.false_eq_true, if_false] at h
        cases body with
        | envelope p =>
          simp only [Except.ok.injEq] at h
          subst h
          exact ⟨rfl, hr⟩
        | healthCheckBody => simp at h
        | notJson m => simp at h
      · have hr' : respOk s = false := by simpa using hr
        rw [hr'] at h
        simp only [Bool.not_false, if_true] at h
        repeat' split at h
        all_goals simp_all

/-- Helper: a GET outcome that the response gauntlet rejects contributes no
observed envelope timestamp. -/
theorem fetchedEnvTS_of_error (f : FetchOutcome) (e : CaughtErr)
    (h : interpretFetchResponse f = .error e) :
    fetchedEnvTS (.fetched f) = none := by
  cases f with
  | networkFail => rfl
  | timeout => rfl
  | response s html body =>
    cases html with
    | true => rfl
    | false =>
      cases body with
      | healthCheckBody => rfl
      | notJson m => rfl
      | envelope p =>
        by_cases hr : respOk s = true
        · exact absurd h (by simp [interpretFetchResponse, hr])
        · have hr' : respOk s = false := by simpa using hr
          simp [fetchedEnvTS, hr']

/-- Helper: `syncData` never decreases the persisted clock. -/
theorem syncData_clock_mono (st : EngineState) (f : FetchOutcome) (p : PushOutcome) :
    st.lastSyncTS ≤ (syncData st f p).1.lastSyncTS := by
  unfold syncData
  simp only [pushToCloud]
  repeat' split
  all_goals simp_all [applyRemoteData]
  all_goals omega

/-- Helper: every envelope timestamp a `syncData` run parses is bounded by
the clock it persists. -/
theorem syncData_observed_le (st : EngineState) (f : FetchOutcome) (p : PushOutcome) :
    ∀ t ∈ (syncData st f p).2.filterMap fetchedEnvTS, t ≤ (syncData st f p).1.lastSyncTS := by
  intro t
  unfold syncData
  split
  · simp
  split
  · simp [fetchedEnvTS]
  split
  · simp [fetchedEnvTS]
  split
  · simp [fetchedEnvTS]
  split
  · rename_i e hF
    have hnone : fetchedEnvTS (.fetched f) = none := fetchedEnvTS_of_error f e hF
    intro ht
    rw [List.mem_filterMap] at ht
    obtain ⟨ev, hev, hts⟩ := ht
    simp only [List.mem_cons, List.not_mem_nil, or_false] at hev
    rcases hev with rfl | rfl
    · rw [hnone] at hts
      cases hts
    · simp [fetchedEnvTS] at hts
  · rename_i remoteData hF
    obtain ⟨s, hshape, hr⟩ := interpretFetchResponse_ok f remoteData hF
    subst hshape
    intro ht
    rcases Nat.lt_trichotomy st.lastSyncTS remoteData.timestamp with hcmp | hcmp | hcmp
    · simp [hcmp, applyRemoteData, List.mem_filterMap, fetchedEnvTS, hr] at ht ⊢
      omega
    · simp [hcmp, List.mem_filterMap, fetchedEnvTS, hr] at ht ⊢
      omega
    · have hngt : ¬ remoteData.timestamp > st.lastSyncTS := by omega
      rcases hp : interpretPushResponse p with e | u <;>
        · simp [hngt, hcmp, pushToCloud, hp, List.mem_filterMap, fetchedEnvTS, hr] at ht ⊢
          omega

/-- Helper: any single engine operation other than a force download never
decreases the persisted clock and leaves it at least every timestamp the
operation observed. -/
theorem engineStep_clock (st : EngineState) (op : EngineOp)
    (h : op.isForceDown = false) :
    st.lastSyncTS ≤ (engineStep st op).lastSyncTS ∧
    ∀ t ∈ stepObservedTS st op, t ≤ (engineStep st op).lastSyncTS := by
  cases op with
  | mutateTouch now =>
    constructor
    · simp [engineStep, engineStepEv, touchLocalData]
    · intro t ht
      simp [stepObservedTS, engineStepEv, fetchedEnvTS] at ht
      simp [engineStep, engineStepEv, touchLocalData, ht]
  | sync f p =>
    constructor
    · exact syncData_clock_mono st f p
    · intro t ht
      simp only [stepObservedTS, List.nil_append, engineStepEv] at ht
      exact syncData_observed_le st f p t ht
  | forceUp now p =>
    cases hc : st.config with
    | none =>
      constructor
      · simp [engineStep, engineStepEv, forceUploadToCloud, hc]
      · intro t ht
        simp [stepObservedTS, engineStepEv, forceUploadToCloud, hc] at ht
    | some config =>
      have hstep : (engineStep st (.forceUp now p)).lastSyncTS = max now (st.lastSyncTS + 1) := by
        rcases hp : interpretPushResponse p with e | u <;>
          simp [engineStep, engineStepEv, forceUploadToCloud, hc, touchLocalData, pushToCloud, hp]
      constructor
      · rw [hstep]
        omega
      · intro t ht
        rw [hstep]
        rcases hp : interpretPushResponse p with e | u <;>
          · simp [stepObservedTS, engineStepEv, forceUploadToCloud, hc, touchLocalData,
              pushToCloud, hp, fetchedEnvTS] at ht
            omega
  | forceDown f => simp [EngineOp.isForceDown] at h

/-- C2 (amended): along any sequence of engine operations that contains no
force download — local mutations (which advance the clock), reconciles
(pull, push, no-op or failure), and force uploads — the persisted logical
clock never decreases, and after the sequence it is at least every timestamp
observed along the way, locally (`Date.now()` readings consumed by the
clock) or remotely (timestamps of successfully fetched envelopes).  A force
download is the exception excluded here: it overwrites the clock with the
remote timestamp unconditionally (see the counterexample). -/
theorem C2_clock_invariant_amended (ops : List EngineOp) (st : EngineState)
    (hops : ∀ op ∈ ops, op.isForceDown = false) :
    st.lastSyncTS ≤ (runTrace st ops).lastSyncTS ∧
    ∀ t ∈ traceObservedTS st ops, t ≤ (runTrace st ops).lastSyncTS := by
  induction ops generalizing st with
  | nil => simp [runTrace, traceObservedTS]
  | cons op rest ih =>
    have hop := hops op (List.mem_cons_self _ _)
    have hstep := engineStep_clock st op hop
    have hrest := ih (engineStep st op) fun o ho => hops o (List.mem_cons_of_mem _ ho)
    refine ⟨le_trans hstep.1 hrest.1, ?_⟩
    intro t ht
    simp only [traceObservedTS, List.mem_append] at ht
    rcases ht with ht | ht
    · exact le_trans (hstep.2 t ht) hrest.1
    · exact hrest.2 t ht

/-- C2 (witness): the amended invariant applied to a concrete trace — a
mutation at wall-clock 100 followed by a reconcile that pulls a remote
envelope stamped 150. -/
theorem C2_clock_invariant_amended_witness :
    cfgState.lastSyncTS ≤
      (runTrace cfgState [.mutateTouch 100,
        .sync (.response 200 false (.envelope ⟨[], [], 150⟩)) (.response 200)]).lastSyncTS ∧
    ∀ t ∈ traceObservedTS cfgState [.mutateTouch 100,
        .sync (.response 200 false (.envelope ⟨[], [], 150⟩)) (.response 200)],
      t ≤ (runTrace cfgState [.mutateTouch 100,
        .sync (.response 200 false (.envelope ⟨[], [], 150⟩)) (.response 200)]).lastSyncTS :=
  C2_clock_invariant_amended _ cfgState (by decide)

/-- C2 (counterexample): after a local mutation at wall-clock 100 the
persisted clock is 100, but a force download whose remote envelope is
stamped 10 rewrites the persisted clock to 10 — an engine operation writing
a clock value smaller than one it had previously observed and persisted,
refuting the claim that every listed operation (force download included)
keeps the persisted clock above all previously observed timestamps. -/
theorem C2_counterexample :
    (engineStep cfgState (.mutateTouch 100)).lastSyncTS = 100 ∧
    100 ∈ stepObservedTS cfgState (.mutateTouch 100) ∧
    (engineStep (engineStep cfgState (.mutateTouch 100))
      (.forceDown (.response 200 false (.envelope ⟨[], [], 10⟩)))).lastSyncTS = 10 := by
  decide

/-! ### List bookkeeping lemmas for the allocator -/

/-- Helper: reading back an in-range update. -/
theorem getD_set_self {α : Type} {l : List α} {i : Nat} {x d : α} (h : i < l.length) :
    (l.set i x).getD i d = x := by
  induction l generalizing i with
  | nil => simp at h
  | cons a t ih =>
    cases i with
    | zero => rfl
    | succ n =>
      simp only [List.set_cons_succ, List.getD_cons_succ]
      exact ih (by simpa using h)

/-- Helper: an update leaves every other position unchanged. -/
theorem getD_set_ne {α : Type} {l : List α} {i j : Nat} {x d : α} (h : i ≠ j) :
    (l.set i x).getD j d = l.getD j d := by
  induction l generalizing i j with
  | nil => simp
  | cons a t ih =>
    cases i with
    | zero =>
      cases j with
      | zero => exact absurd rfl h
      | succ m => rfl
    | succ n =>
      cases j with
      | zero => rfl
      | succ m =>
        simp only [List.set_cons_succ, List.getD_cons_succ]
        exact ih fun hnm => h (by omega)

/-- Helper: total recorded payments after an in-range update. -/
theorem histTotal_set {l : List EstimateRecord} {i : Nat} {x : EstimateRecord}
    (h : i < l.length) :
    histTotal (l.set i x) =
      histTotal l - (histAmounts (l.getD i default)).sum + (histAmounts x).sum := by
  induction l generalizing i with
  | nil => simp at h
  | cons a t ih =>
    cases i with
    | zero =>
      simp only [List.set_cons_zero, histTotal, List.map_cons, List.sum_cons, List.getD_cons_zero]
      ring
    | succ n =>
      simp only [List.set_cons_succ, histTotal, List.map_cons, List.sum_cons, List.getD_cons_succ]
      have := ih (i := n) (by simpa using h)
      simp only [histTotal] at this
      rw [this]
      ring

/-- Helper: appending one entry to a record's history adds its amount. -/
theorem histAmounts_append (e : EstimateRecord) (pe : PaymentEntry) :
    (histAmounts { e with paymentHistory := some (e.paymentHistory.getD [] ++ [pe]) }).sum =
      (histAmounts e).sum + pe.amount := by
  simp [histAmounts]

/-- Helper: inserting into the date-ordered list is a permutation of consing. -/
theorem insertByDate_perm (x : IndexedEstimate) (l : List IndexedEstimate) :
    (insertByDate x l).Perm (x :: l) := by
  induction l with
  | nil => exact List.Perm.refl _
  | cons y ys ih =>
    simp only [insertByDate]
    split
    · exact ((ih.cons y).trans (List.Perm.swap x y ys))
    · exact List.Perm.refl _

/-- Helper: the stable date sort permutes its input. -/
theorem sortByDateAsc_perm (l : List IndexedEstimate) : (sortByDateAsc l).Perm l := by
  suffices h : ∀ (xs acc : List IndexedEstimate),
      (xs.foldl (fun a x => insertByDate x a) acc).Perm (acc ++ xs) by
    simpa [sortByDateAsc] using h l []
  intro xs
  induction xs with
  | nil => simp
  | cons x rest ih =>
    intro acc
    simp only [List.foldl_cons]
    refine (ih (insertByDate x acc)).trans ?_
    refine (List.Perm.append_right rest (insertByDate_perm x acc)).trans ?_
    simpa using List.perm_middle.symm

/-- Helper: membership in an enumeration pins index and value. -/
theorem mem_enumFrom_getD {α : Type} [Inhabited α] :
    ∀ (l : List α) (n : Nat) (p : Nat × α), p ∈ l.enumFrom n →
      n ≤ p.1 ∧ p.1 - n < l.length ∧ l.getD (p.1 - n) default = p.2 := by
  intro l
  induction l with
  | nil => intro n p hp; simp [List.enumFrom] at hp
  | cons a t ih =>
    intro n p hp
    simp only [List.enumFrom, List.mem_cons] at hp
    rcases hp with rfl | hp
    · simp
    · obtain ⟨h1, h2, h3⟩ := ih (n + 1) p hp
      refine ⟨by omega, by simp; omega, ?_⟩
      have hidx : p.1 - n = (p.1 - (n + 1)) + 1 := by omega
      rw [hidx, List.getD_cons_succ]
      exact h3

/-- Helper: enumeration indices are strictly increasing. -/
theorem enumFrom_pairwise_fst {α : Type} [Inhabited α] :
    ∀ (l : List α) (n : Nat), (l.enumFrom n).Pairwise (fun a b => a.1 < b.1) := by
  intro l
  induction l with
  | nil => intro n; simp [List.enumFrom]
  | cons a t ih =>
    intro n
    simp only [List.enumFrom]
    refine List.Pairwise.cons ?_ (ih (n + 1))
    intro q hq
    have := (mem_enumFrom_getD t (n + 1) q hq).1
    omega

/-- Helper: every candidate of the allocation loop is a confirmed record of
the target's customer, carried with its valid index into the stored list, of
which it is the pre-call snapshot. -/
theorem mem_customerEstimatesIndices {ests : List EstimateRecord} {key : String}
    {o : IndexedEstimate} (ho : o ∈ customerEstimatesIndices ests key) :
    o.originalIndex < ests.length ∧
    o.est = ests.getD o.originalIndex default ∧
    o.est.status = .confirmed ∧ getCustKey o.est.customer = key := by
  have hperm := sortByDateAsc_perm
    ((ests.enum.map fun p => IndexedEstimate.mk p.2 p.1).filter
      fun x => decide (x.est.status = EstimateStatus.confirmed
        ∧ getCustKey x.est.customer = key))
  have ho' := hperm.mem_iff.mp ho
  have hmem := List.mem_of_mem_filter ho'
  have hfilt := List.of_mem_filter ho'
  simp only [decide_eq_true_eq] at hfilt
  obtain ⟨q, hq, hqo⟩ := List.mem_map.mp hmem
  have henum := mem_enumFrom_getD ests 0 q (by simpa [List.enum] using hq)
  subst hqo
  simp only [Nat.sub_zero] at henum
  exact ⟨henum.2.1, henum.2.2.symm, hfilt.1, hfilt.2⟩

/-- Helper: the candidates of the allocation loop carry pairwise-distinct
indices into the stored list. -/
theorem customerEstimatesIndices_pairwise (ests : List EstimateRecord) (key : String) :
    (customerEstimatesIndices ests key).Pairwise
      (fun a b => a.originalIndex ≠ b.originalIndex) := by
  have h0 : (ests.enum.map fun p => IndexedEstimate.mk p.2 p.1).Pairwise
      (fun a b => a.originalIndex ≠ b.originalIndex) := by
    refine List.Pairwise.map _ ?_ (enumFrom_pairwise_fst ests 0)
    intro a b hab
    simpa using Nat.ne_of_lt hab
  have h1 := h0.filter
    (fun x => decide (x.est.status = EstimateStatus.confirmed
      ∧ getCustKey x.est.customer = key))
  have hperm := sortByDateAsc_perm
    ((ests.enum.map fun p => IndexedEstimate.mk p.2 p.1).filter
      fun x => decide (x.est.status = EstimateStatus.confirmed
        ∧ getCustKey x.est.customer = key))
  exact (List.Perm.pairwise_iff (fun hxy => Ne.symm hxy) hperm).mpr h1

/-! ### C6: conservation of the allocated amount -/

/-- Helper: the allocation loop consumes exactly what it books — the total
recorded payments grow by the difference between the remaining amount on
entry and on exit, the exit remainder is nonnegative when the entry
remainder is positive, and the list length is preserved. -/
theorem applyToOthers_conservation (uuid : Nat → String) (nowMs : Nat)
    (payment : PaymentEntry) (userNote targetId : String) :
    ∀ (snaps : List IndexedEstimate) (ests : List EstimateRecord) (rem : ℚ) (uid : Nat),
      (∀ o ∈ snaps, o.originalIndex < ests.length) → 0 < rem →
      0 ≤ (applyToOthers uuid nowMs payment userNote targetId snaps ests rem uid).2.1 ∧
      histTotal (applyToOthers uuid nowMs payment userNote targetId snaps ests rem uid).1 =
        histTotal ests +
          (rem - (applyToOthers uuid nowMs payment userNote targetId snaps ests rem uid).2.1) ∧
      (applyToOthers uuid nowMs payment userNote targetId snaps ests rem uid).1.length =
        ests.length := by
  intro snaps
  induction snaps with
  | nil =>
    intro ests rem uid hidx hrem
    refine ⟨le_of_lt hrem, ?_, rfl⟩
    simp [applyToOthers]
  | cons o rest ih =>
    intro ests rem uid hidx hrem
    have ho : o.originalIndex < ests.length := hidx o (List.mem_cons_self _ _)
    have hrest : ∀ x ∈ rest, x.originalIndex < ests.length :=
      fun x hx => hidx x (List.mem_cons_of_mem _ hx)
    by_cases hskip : o.est.id = targetId
    · simpa only [applyToOthers, hskip, if_true] using ih ests rem uid hrest hrem
    · by_cases hdue : (calculateDue o.est).due > 1
      · have hpayle : min (calculateDue o.est).due rem ≤ rem := min_le_right _ _
        have hpaypos : 0 < min (calculateDue o.est).due rem :=
          lt_min (by linarith) hrem
        by_cases hstop : rem - min (calculateDue o.est).due rem ≤ 0
        · simp only [applyToOthers, hskip, if_false, hdue, if_true, hstop, ite_true,
            ite_false]
          refine ⟨by linarith, ?_, by simp⟩
          rw [histTotal_set ho]
          simp [histAmounts]
          ring
        · have hrem' : 0 < rem - min (calculateDue o.est).due rem := by linarith
          simp only [applyToOthers, hskip, if_false, hdue, if_true, hstop, ite_true, ite_false]
          set est' : EstimateRecord :=
            { (ests.getD o.originalIndex default) with
                paymentHistory :=
                  some ((ests.getD o.originalIndex default).paymentHistory.getD [] ++
                    [{ payment with
                        amount := min (calculateDue o.est).due rem
                        id := uuid uid
                        note := userNote ++ "Cleared Inv#" ++ jsOrOpt o.est.invoiceNumber "Old Dues" }])
                amountPaid :=
                  some ((ests.getD o.originalIndex default).amountPaid.getD 0 +
                    min (calculateDue o.est).due rem)
                paymentStatus :=
                  if (ests.getD o.originalIndex default).amountPaid.getD 0 +
                      min (calculateDue o.est).due rem ≥ (calculateDue o.est).total - 1
                  then PaymentStatus.paid else PaymentStatus.partiallyPaid
                lastModified := nowMs } with hest'
          have hrest' : ∀ x ∈ rest, x.originalIndex < (ests.set o.originalIndex est').length :=
            by simpa using hrest
          obtain ⟨ih1, ih2, ih3⟩ :=
            ih (ests.set o.originalIndex est') (rem - min (calculateDue o.est).due rem)
              (uid + 1) hrest' hrem'
          refine ⟨ih1, ?_, by simpa using ih3⟩
          rw [ih2, histTotal_set ho]
          simp only [hest', histAmounts]
          simp
          ring
      · simpa only [applyToOthers, hskip, if_false, hdue, ite_false] using
          ih ests rem uid hrest hrem

/-- Helper: phase 1 books `amount - remainder` onto the target, the
remainder is nonnegative for a nonnegative amount, and the length is
preserved. -/
theorem payTargetStep_conservation (uuid : Nat → String) (nowMs : Nat)
    (estimates : List EstimateRecord) (targetIdx : Nat) (payment : PaymentEntry)
    (userNote : String) (hidx : targetIdx < estimates.length) (hamt : 0 ≤ payment.amount) :
    0 ≤ (payTargetStep uuid nowMs estimates targetIdx payment userNote).2.1 ∧
    histTotal (payTargetStep uuid nowMs estimates targetIdx payment userNote).1 =
      histTotal estimates +
        (payment.amount - (payTargetStep uuid nowMs estimates targetIdx payment userNote).2.1) ∧
    (payTargetStep uuid nowMs estimates targetIdx payment userNote).1.length =
      estimates.length := by
  unfold payTargetStep
  by_cases c1 : (calculateDue (estimates.getD targetIdx default)).due > 0
  · by_cases c2 : min (calculateDue (estimates.getD targetIdx default)).due payment.amount > 0
    · have hple : min (calculateDue (estimates.getD targetIdx default)).due payment.amount ≤
          payment.amount := min_le_right _ _
      simp only [c1, c2, ite_true]
      refine ⟨by linarith, ?_, by simp⟩
      rw [histTotal_set hidx]
      simp [histAmounts]
      ring
    · simp only [c1, ite_true, c2, ite_false]
      exact ⟨hamt, by ring, by trivial⟩
  · simp only [c1, ite_false]
    exact ⟨hamt, by ring, by trivial⟩

/-- Helper: phase 3 books exactly the remainder onto the target and
preserves the length. -/
theorem advanceStep_total (uuid : Nat → String) (nowMs : Nat) (payment : PaymentEntry)
    (userNote : String) (targetIdx : Nat) (step2 : List EstimateRecord × ℚ × Nat)
    (hidx : targetIdx < step2.1.length) (hrem : 0 ≤ step2.2.1) :
    histTotal (advanceStep uuid nowMs payment userNote targetIdx step2) =
      histTotal step2.1 + step2.2.1 ∧
    (advanceStep uuid nowMs payment userNote targetIdx step2).length = step2.1.length := by
  unfold advanceStep
  by_cases c : step2.2.1 > 0
  · simp only [c, ite_true]
    constructor
    · rw [histTotal_set hidx]
      simp [histAmounts]
      ring
    · simp
  · have hz : step2.2.1 = 0 := le_antisymm (not_lt.mp c) hrem
    simp only [c, ite_false]
    exact ⟨by rw [hz]; ring, by trivial⟩

/-- C6 (amended): for every allocation call whose target id exists and whose
payment amount is nonnegative, the sum of the amounts of all newly created
payment entries appended across all records equals the input amount exactly
(stated as: the total of all recorded payment amounts grows by exactly the
input amount; entries are only ever appended). -/
theorem C6_conservation_amended (uuid : Nat → String) (nowMs : Nat)
    (ests : List EstimateRecord) (targetEstId : String) (payment : PaymentEntry)
    (hfound : ests.findIdx (fun e => decide (e.id = targetEstId)) < ests.length)
    (hamt : 0 ≤ payment.amount) :
    histTotal (addPaymentCore uuid nowMs ests targetEstId payment) =
      histTotal ests + payment.amount := by
  unfold addPaymentCore
  simp only [hfound, ite_true]
  set userNote := if payment.note ≠ "" then payment.note ++ " - " else "" with hUN
  set tIdx := ests.findIdx fun e => decide (e.id = targetEstId) with hT
  set snaps := customerEstimatesIndices ests (getCustKey (ests.getD tIdx default).customer)
    with hS
  set step1 := payTargetStep uuid nowMs ests tIdx payment userNote with h1
  obtain ⟨hs1a, hs1b, hs1c⟩ :=
    payTargetStep_conservation uuid nowMs ests tIdx payment userNote hfound hamt
  have hsnapsIdx : ∀ o ∈ snaps, o.originalIndex < step1.1.length := by
    rw [hs1c]
    intro o ho
    exact (mem_customerEstimatesIndices ho).1
  by_cases c3 : step1.2.1 > 0
  · obtain ⟨hA0, hA1, hA2⟩ := applyToOthers_conservation uuid nowMs payment userNote
      (ests.getD tIdx default).id snaps step1.1 step1.2.1 step1.2.2 hsnapsIdx c3
    obtain ⟨hadv1, _⟩ := advanceStep_total uuid nowMs payment userNote tIdx
      (applyToOthers uuid nowMs payment userNote
        (ests.getD tIdx default).id snaps step1.1 step1.2.1 step1.2.2)
      (by rw [hA2, hs1c]; exact hfound) hA0
    simp only [c3, ite_true]
    rw [hadv1, hA1, hs1b]
    ring
  · obtain ⟨hadv1, _⟩ := advanceStep_total uuid nowMs payment userNote tIdx step1
      (by rw [hs1c]; exact hfound) hs1a
    have hz : step1.2.1 = 0 := le_antisymm (not_lt.mp c3) hs1a
    simp only [c3, ite_false]
    rw [hadv1, hs1b, hz]
    ring

/-- Helper: with a nonpositive payment amount the allocation changes
nothing: the target gate `pay > 0` fails, the loop gate `remaining > 0`
fails, and the advance gate fails, so the stored list is returned as is. -/
theorem addPaymentCore_nonpos (uuid : Nat → String) (nowMs : Nat)
    (ests : List EstimateRecord) (targetEstId : String) (payment : PaymentEntry)
    (hamt : payment.amount ≤ 0) :
    addPaymentCore uuid nowMs ests targetEstId payment = ests := by
  have hnpos : ¬ payment.amount > 0 := not_lt.mpr hamt
  unfold addPaymentCore
  by_cases hfound : ests.findIdx (fun e => decide (e.id = targetEstId)) < ests.length
  · simp only [hfound, ite_true]
    have h1 : payTargetStep uuid nowMs ests
        (ests.findIdx fun e => decide (e.id = targetEstId)) payment
        (if payment.note ≠ "" then payment.note ++ " - " else "") =
        (ests, payment.amount, 0) := by
      unfold payTargetStep
      by_cases c1 : (calculateDue (ests.getD
          (ests.findIdx fun e => decide (e.id = targetEstId)) default)).due > 0
      · have c2 : ¬ min (calculateDue (ests.getD
            (ests.findIdx fun e => decide (e.id = targetEstId)) default)).due
            payment.amount > 0 := by
          have := min_le_right (calculateDue (ests.getD
            (ests.findIdx fun e => decide (e.id = targetEstId)) default)).due payment.amount
          push_neg
          linarith
        simp only [c1, ite_true, c2, ite_false]
      · simp only [c1, ite_false]
    rw [h1]
    dsimp only
    simp only [hnpos, ite_false]
    unfold advanceStep
    dsimp only
    simp only [hnpos, ite_false]
  · simp only [hfound, ite_false]

/-- C6 (counterexample): calling the allocator with an existing target and a
negative amount (-5) appends no entry at all — the total of recorded
payments grows by 0, not by the input amount, refuting exact conservation
for every call. -/
theorem C6_counterexample :
    addPaymentCore uuidFix 99 [paRec "T" (some "I1") 0 10] "T"
        { id := "p", amount := -5, date := "d", note := "" } =
      [paRec "T" (some "I1") 0 10] ∧
    histTotal (addPaymentCore uuidFix 99 [paRec "T" (some "I1") 0 10] "T"
        { id := "p", amount := -5, date := "d", note := "" }) =
      histTotal [paRec "T" (some "I1") 0 10] + 0 ∧
    (0 : ℚ) ≠ -5 := by
  have h := addPaymentCore_nonpos uuidFix 99 [paRec "T" (some "I1") 0 10] "T"
    { id := "p", amount := -5, date := "d", note := "" } (by norm_num)
  refine ⟨h, ?_, by norm_num⟩
  rw [h]
  ring

/-- C6 (witness): the amended conservation theorem applied to a concrete
state — one invoice of due 10, a payment of 4 — where the recorded total
grows by exactly 4. -/
theorem C6_conservation_amended_witness :
    histTotal (addPaymentCore uuidFix 99 [paRec "T" (some "I1") 0 10] "T"
        { id := "p", amount := 4, date := "d", note := "" }) =
      histTotal [paRec "T" (some "I1") 0 10] + 4 :=
  C6_conservation_amended uuidFix 99 [paRec "T" (some "I1") 0 10] "T"
    { id := "p", amount := 4, date := "d", note := "" } (by decide) (by norm_num)

/-! ### C10: guards of the engine-level operation -/

/-- C10: when the target id is not present in the stored estimates, the
engine-level `addPaymentToEstimate` returns with the state untouched and no
events — no record modified, no entry appended, no clock advance, no
notification, no sync; and when the payment amount is nonpositive, the
allocation itself returns the stored list unchanged — no entry is created
and no record's history, cache, status or `lastModified` changes. -/
theorem C10_guards (uuid : Nat → String) (nowMs : Nat) (st : EngineState)
    (targetEstId : String) (payment : PaymentEntry)
    (f : FetchOutcome) (p : PushOutcome) :
    (¬ st.estimates.findIdx (fun e => decide (e.id = targetEstId)) < st.estimates.length →
      addPaymentToEstimate uuid nowMs st targetEstId payment f p = (st, [])) ∧
    (payment.amount ≤ 0 →
      addPaymentCore uuid nowMs st.estimates targetEstId payment = st.estimates) := by
  constructor
  · intro h
    simp [addPaymentToEstimate, h]
  · intro h
    exact addPaymentCore_nonpos uuid nowMs st.estimates targetEstId payment h

/-- C10 (witness): the guard theorem applied at a concrete state whose
estimate list does not contain the requested id, and a concrete nonpositive
payment. -/
theorem C10_guards_witness :
    addPaymentToEstimate uuidFix 99 cfgState "missing"
        { id := "p", amount := 7, date := "d", note := "" } .networkFail (.response 200) =
      (cfgState, []) ∧
    addPaymentCore uuidFix 99 cfgState.estimates "missing"
        { id := "p", amount := 0, date := "d", note := "" } = cfgState.estimates :=
  ⟨(C10_guards uuidFix 99 cfgState "missing"
      { id := "p", amount := 7, date := "d", note := "" } .networkFail (.response 200)).1
      (by decide),
   (C10_guards uuidFix 99 cfgState "missing"
      { id := "p", amount := 0, date := "d", note := "" } .networkFail (.response 200)).2
      (by norm_num)⟩

/-! ### C8: one fresh entry per touched record (two on the target) -/

/-- Helper: per-position effect of the allocation loop.  The loop appends at
most one entry to any position, every appended entry carries a fresh id from
the uuid supply (with call index at least the incoming counter and below the
outgoing one), stamps `lastModified`, touches only positions belonging to a
candidate snapshot whose id differs from the target's, leaves untouched
positions bit-for-bit unchanged, never decreases the uuid counter, and
preserves the list length. -/
theorem applyToOthers_per_index (uuid : Nat → String) (nowMs : Nat) (payment : PaymentEntry)
    (userNote targetId : String) :
    ∀ (snaps : List IndexedEstimate) (ests : List EstimateRecord) (rem : ℚ) (uid : Nat),
      (∀ o ∈ snaps, o.originalIndex < ests.length) →
      snaps.Pairwise (fun a b => a.originalIndex ≠ b.originalIndex) →
      uid ≤ (applyToOthers uuid nowMs payment userNote targetId snaps ests rem uid).2.2 ∧
      (applyToOthers uuid nowMs payment userNote targetId snaps ests rem uid).1.length =
        ests.length ∧
      ∀ j : Nat, ∃ newE : List PaymentEntry,
        ((applyToOthers uuid nowMs payment userNote targetId snaps ests rem uid).1.getD j
            default).paymentHistory.getD [] =
          (ests.getD j default).paymentHistory.getD [] ++ newE ∧
        newE.length ≤ 1 ∧
        (newE = [] →
          (applyToOthers uuid nowMs payment userNote targetId snaps ests rem uid).1.getD j
            default = ests.getD j default) ∧
        (newE ≠ [] →
          ((applyToOthers uuid nowMs payment userNote targetId snaps ests rem uid).1.getD j
              default).lastModified = nowMs ∧
          (∃ o ∈ snaps, o.originalIndex = j ∧ ¬ o.est.id = targetId) ∧
          ∃ n : Nat, uid ≤ n ∧
            n < (applyToOthers uuid nowMs payment userNote targetId snaps ests rem uid).2.2 ∧
            ∀ pe ∈ newE, pe.id = uuid n) := by
  intro snaps
  induction snaps with
  | nil =>
    intro ests rem uid hidx hpw
    exact ⟨le_refl _, rfl, fun j =>
      ⟨[], by simp [applyToOthers], by simp, fun _ => by simp [applyToOthers],
        fun hne => absurd rfl hne⟩⟩
  | cons o rest ih =>
    intro ests rem uid hidx hpw
    have ho : o.originalIndex < ests.length := hidx o (List.mem_cons_self _ _)
    have hrest : ∀ x ∈ rest, x.originalIndex < ests.length :=
      fun x hx => hidx x (List.mem_cons_of_mem _ hx)
    have hpwHead : ∀ o' ∈ rest, o.originalIndex ≠ o'.originalIndex :=
      fun o' ho' => List.rel_of_pairwise_cons hpw ho'
    have hpwTail := hpw.of_cons
    by_cases hskip : o.est.id = targetId
    · obtain ⟨ihA, ihB, ihC⟩ := ih ests rem uid hrest hpwTail
      rw [show applyToOthers uuid nowMs payment userNote targetId (o :: rest) ests rem uid =
        applyToOthers uuid nowMs payment userNote targetId rest ests rem uid by
          simp only [applyToOthers, hskip, ite_true]]
      refine ⟨ihA, ihB, fun j => ?_⟩
      obtain ⟨newE, h1, h2, h3, h4⟩ := ihC j
      exact ⟨newE, h1, h2, h3, fun hne =>
        ⟨(h4 hne).1, by
          obtain ⟨o', ho', hoj, hot⟩ := (h4 hne).2.1
          exact ⟨o', List.mem_cons_of_mem _ ho', hoj, hot⟩,
         (h4 hne).2.2⟩⟩
    · by_cases hdue : (calculateDue o.est).due > 1
      · set est' : EstimateRecord :=
          { (ests.getD o.originalIndex default) with
              paymentHistory :=
                some ((ests.getD o.originalIndex default).paymentHistory.getD [] ++
                  [{ payment with
                      amount := min (calculateDue o.est).due rem
                      id := uuid uid
                      note := userNote ++ "Cleared Inv#" ++ jsOrOpt o.est.invoiceNumber "Old Dues" }])
              amountPaid :=
                some ((ests.getD o.originalIndex default).amountPaid.getD 0 +
                  min (calculateDue o.est).due rem)
              paymentStatus :=
                if (ests.getD o.originalIndex default).amountPaid.getD 0 +
                    min (calculateDue o.est).due rem ≥ (calculateDue o.est).total - 1
                then PaymentStatus.paid else PaymentStatus.partiallyPaid
              lastModified := nowMs } with hest'
        by_cases hstop : rem - min (calculateDue o.est).due rem ≤ 0
        · rw [show applyToOthers uuid nowMs payment userNote targetId (o :: rest) ests rem uid =
            (ests.set o.originalIndex est', rem - min (calculateDue o.est).due rem, uid + 1) by
              simp only [applyToOthers, hskip, ite_false, hdue, ite_true, hstop, hest']]
          refine ⟨by dsimp only; omega, by simp, fun j => ?_⟩
          by_cases hj : o.originalIndex = j
          · subst hj
            refine ⟨[{ payment with
                amount := min (calculateDue o.est).due rem
                id := uuid uid
                note := userNote ++ "Cleared Inv#" ++ jsOrOpt o.est.invoiceNumber "Old Dues" }],
              ?_, by simp, by simp, fun _ => ?_⟩
            · rw [getD_set_self ho]
              simp [hest']
            · refine ⟨by rw [getD_set_self ho], ⟨o, List.mem_cons_self _ _, rfl, hskip⟩,
                uid, le_refl _, by dsimp only; omega, ?_⟩
              intro pe hpe
              simp at hpe
              rw [hpe]
          · refine ⟨[], ?_, by simp, fun _ => ?_, fun hne => absurd rfl hne⟩
            · rw [getD_set_ne hj]
              simp
            · rw [getD_set_ne hj]
        · have hidx' : ∀ x ∈ rest, x.originalIndex < (ests.set o.originalIndex est').length :=
            by simpa using hrest
          obtain ⟨ihA, ihB, ihC⟩ := ih (ests.set o.originalIndex est')
            (rem - min (calculateDue o.est).due rem) (uid + 1) hidx' hpwTail
          rw [show applyToOthers uuid nowMs payment userNote targetId (o :: rest) ests rem uid =
            applyToOthers uuid nowMs payment userNote targetId rest
              (ests.set o.originalIndex est') (rem - min (calculateDue o.est).due rem) (uid + 1) by
              simp only [applyToOthers, hskip, ite_false, hdue, ite_true, hstop, hest']]
          refine ⟨by omega, by simpa using ihB, fun j => ?_⟩
          by_cases hj : o.originalIndex = j
          · subst hj
            obtain ⟨newE, h1, h2, h3, h4⟩ := ihC o.originalIndex
            have hempty : newE = [] := by
              by_contra hne
              obtain ⟨o', ho', hoj, _⟩ := (h4 hne).2.1
              exact hpwHead o' ho' hoj.symm
            have heq := h3 hempty
            rw [heq, getD_set_self ho]
            refine ⟨[{ payment with
                amount := min (calculateDue o.est).due rem
                id := uuid uid
                note := userNote ++ "Cleared Inv#" ++ jsOrOpt o.est.invoiceNumber "Old Dues" }],
              by simp [hest'], by simp, by simp [hest'], fun _ => ?_⟩
            refine ⟨by simp [hest'], ⟨o, List.mem_cons_self _ _, rfl, hskip⟩,
              uid, le_refl _, by omega, ?_⟩
            intro pe hpe
            simp at hpe
            rw [hpe]
          · obtain ⟨newE, h1, h2, h3, h4⟩ := ihC j
            rw [getD_set_ne hj] at h1 h3
            refine ⟨newE, h1, h2, h3, fun hne => ?_⟩
            obtain ⟨hlm, ⟨o', ho', hoj, hot⟩, n, hn1, hn2, hn3⟩ := h4 hne
            exact ⟨hlm, ⟨o', List.mem_cons_of_mem _ ho', hoj, hot⟩, n, by omega, hn2, hn3⟩
      · obtain ⟨ihA, ihB, ihC⟩ := ih ests rem uid hrest hpwTail
        rw [show applyToOthers uuid nowMs payment userNote targetId (o :: rest) ests rem uid =
          applyToOthers uuid nowMs payment userNote targetId rest ests rem uid by
            simp only [applyToOthers, hskip, ite_false, hdue]]
        refine ⟨ihA, ihB, fun j => ?_⟩
        obtain ⟨newE, h1, h2, h3, h4⟩ := ihC j
        exact ⟨newE, h1, h2, h3, fun hne =>
          ⟨(h4 hne).1, by
            obtain ⟨o', ho', hoj, hot⟩ := (h4 hne).2.1
            exact ⟨o', List.mem_cons_of_mem _ ho', hoj, hot⟩,
           (h4 hne).2.2⟩⟩

/-- Helper: phase 1 either leaves the list untouched (returning the full
amount and uuid counter 0) or appends exactly one entry — with id `uuid 0`
and the target's invoice tag — to the target position, stamps its
`lastModified`, and returns counter 1. -/
theorem payTargetStep_cases (uuid : Nat → String) (nowMs : Nat)
    (estimates : List EstimateRecord) (targetIdx : Nat) (payment : PaymentEntry)
    (userNote : String) (hidx : targetIdx < estimates.length) :
    payTargetStep uuid nowMs estimates targetIdx payment userNote =
      (estimates, payment.amount, 0) ∨
    ((payTargetStep uuid nowMs estimates targetIdx payment userNote).2.1 =
        payment.amount -
          min (calculateDue (estimates.getD targetIdx default)).due payment.amount ∧
      (payTargetStep uuid nowMs estimates targetIdx payment userNote).2.2 = 1 ∧
      (payTargetStep uuid nowMs estimates targetIdx payment userNote).1.length =
        estimates.length ∧
      (∀ j : Nat, j ≠ targetIdx →
        (payTargetStep uuid nowMs estimates targetIdx payment userNote).1.getD j default =
          estimates.getD j default) ∧
      ((payTargetStep uuid nowMs estimates targetIdx payment userNote).1.getD targetIdx
          default).paymentHistory.getD [] =
        (estimates.getD targetIdx default).paymentHistory.getD [] ++
          [{ payment with
              amount := min (calculateDue (estimates.getD targetIdx default)).due payment.amount
              id := uuid 0
              note := userNote ++ "Inv#" ++
                jsOrOpt (estimates.getD targetIdx default).invoiceNumber "Ref" ++ " Payment" }] ∧
      ((payTargetStep uuid nowMs estimates targetIdx payment userNote).1.getD targetIdx
          default).lastModified = nowMs) := by
  unfold payTargetStep
  by_cases c1 : (calculateDue (estimates.getD targetIdx default)).due > 0
  · by_cases c2 : min (calculateDue (estimates.getD targetIdx default)).due payment.amount > 0
    · right
      simp only [c1, ite_true, c2]
      refine ⟨by trivial, by trivial, by simp, fun j hj => ?_, ?_, ?_⟩
      · rw [getD_set_ne fun h => hj h.symm]
      · rw [getD_set_self hidx]
        simp
      · rw [getD_set_self hidx]
    · left
      simp only [c1, ite_true, c2, ite_false]
  · left
    simp only [c1, ite_false]

/-- Helper: phase 3 either does nothing (no remainder) or appends exactly
one "Advance / Credit" entry — with id taken at the current uuid counter —
to the target position and stamps its `lastModified`. -/
theorem advanceStep_cases (uuid : Nat → String) (nowMs : Nat) (payment : PaymentEntry)
    (userNote : String) (targetIdx : Nat) (step2 : List EstimateRecord × ℚ × Nat)
    (hidx : targetIdx < step2.1.length) :
    advanceStep uuid nowMs payment userNote targetIdx step2 = step2.1 ∨
    ((advanceStep uuid nowMs payment userNote targetIdx step2).length = step2.1.length ∧
      (∀ j : Nat, j ≠ targetIdx →
        (advanceStep uuid nowMs payment userNote targetIdx step2).getD j default =
          step2.1.getD j default) ∧
      ((advanceStep uuid nowMs payment userNote targetIdx step2).getD targetIdx
          default).paymentHistory.getD [] =
        (step2.1.getD targetIdx default).paymentHistory.getD [] ++
          [{ payment with
              amount := step2.2.1
              id := uuid step2.2.2
              note := userNote ++ "Advance / Credit" }] ∧
      ((advanceStep uuid nowMs payment userNote targetIdx step2).getD targetIdx
          default).lastModified = nowMs) := by
  unfold advanceStep
  by_cases c : step2.2.1 > 0
  · right
    simp only [c, ite_true]
    refine ⟨by simp, fun j hj => ?_, ?_, ?_⟩
    · rw [getD_set_ne fun h => hj h.symm]
    · rw [getD_set_self hidx]
      simp
    · rw [getD_set_self hidx]
  · left
    simp only [c, ite_false]

/-- Helper: combined per-position effect of phases 2 and 3.  Any position
other than the target gains at most one entry (with a fresh id at or above
the incoming uuid counter, `lastModified` stamped, unchanged otherwise), and
the target position gains at most one entry from phase 3 only — the loop
never touches the target because every candidate snapshot at the target's
position carries the target's id. -/
theorem tailSteps_per_index (uuid : Nat → String) (nowMs : Nat) (payment : PaymentEntry)
    (userNote targetId : String) (tIdx : Nat) (snaps : List IndexedEstimate)
    (ests1 : List EstimateRecord) (rem1 : ℚ) (uid1 : Nat)
    (step2 : List EstimateRecord × ℚ × Nat)
    (hstep2 : step2 = if rem1 > 0 then
        applyToOthers uuid nowMs payment userNote targetId snaps ests1 rem1 uid1
      else (ests1, rem1, uid1))
    (res : List EstimateRecord)
    (hres : res = advanceStep uuid nowMs payment userNote tIdx step2)
    (hidx : ∀ o ∈ snaps, o.originalIndex < ests1.length)
    (hpw : snaps.Pairwise (fun a b => a.originalIndex ≠ b.originalIndex))
    (htgtSnap : ∀ o ∈ snaps, o.originalIndex = tIdx → o.est.id = targetId)
    (htlen : tIdx < ests1.length) :
    res.length = ests1.length ∧
    (∀ j : Nat, j ≠ tIdx → ∃ newE : List PaymentEntry,
      (res.getD j default).paymentHistory.getD [] =
        (ests1.getD j default).paymentHistory.getD [] ++ newE ∧
      newE.length ≤ 1 ∧
      (newE = [] → res.getD j default = ests1.getD j default) ∧
      (newE ≠ [] → (res.getD j default).lastModified = nowMs) ∧
      (∀ pe ∈ newE, ∃ n : Nat, uid1 ≤ n ∧ pe.id = uuid n)) ∧
    (∃ E3 : List PaymentEntry,
      (res.getD tIdx default).paymentHistory.getD [] =
        (ests1.getD tIdx default).paymentHistory.getD [] ++ E3 ∧
      E3.length ≤ 1 ∧
      (E3 = [] → res.getD tIdx default = ests1.getD tIdx default) ∧
      (E3 ≠ [] → (res.getD tIdx default).lastModified = nowMs) ∧
      (∀ pe ∈ E3, ∃ n : Nat, uid1 ≤ n ∧ pe.id = uuid n)) := by
  by_cases c3 : rem1 > 0
  · rw [if_pos c3] at hstep2
    subst hstep2
    obtain ⟨hAuid, hAlen, hAj⟩ := applyToOthers_per_index uuid nowMs payment userNote targetId
      snaps ests1 rem1 uid1 hidx hpw
    have htlen2 : tIdx <
        (applyToOthers uuid nowMs payment userNote targetId snaps ests1 rem1 uid1).1.length := by
      rw [hAlen]; exact htlen
    have htgt0 :
        (applyToOthers uuid nowMs payment userNote targetId snaps ests1 rem1 uid1).1.getD tIdx
          default = ests1.getD tIdx default := by
      obtain ⟨newE, h1, h2, h3, h4⟩ := hAj tIdx
      rcases eq_or_ne newE [] with he | he
      · exact h3 he
      · obtain ⟨_, ⟨o, ho, hoj, hot⟩, _⟩ := h4 he
        exact absurd (htgtSnap o ho hoj) hot
    rcases advanceStep_cases uuid nowMs payment userNote tIdx
      (applyToOthers uuid nowMs payment userNote targetId snaps ests1 rem1 uid1) htlen2 with
      hadv | ⟨hl, hj, hh, hm⟩
    · rw [hadv] at hres
      subst hres
      refine ⟨hAlen, fun j hjne => ?_, ?_⟩
      · obtain ⟨newE, h1, h2, h3, h4⟩ := hAj j
        refine ⟨newE, h1, h2, h3, fun hne => (h4 hne).1, fun pe hpe => ?_⟩
        have hne : newE ≠ [] := by
          intro he
          rw [he] at hpe
          exact absurd hpe (List.not_mem_nil pe)
        obtain ⟨_, _, n, hn1, _, hall⟩ := h4 hne
        exact ⟨n, hn1, hall pe hpe⟩
      · exact ⟨[], by rw [htgt0]; simp, by simp, fun _ => htgt0,
          fun hne => absurd rfl hne, by simp⟩
    · subst hres
      refine ⟨by rw [hl, hAlen], fun j hjne => ?_, ?_⟩
      · obtain ⟨newE, h1, h2, h3, h4⟩ := hAj j
        refine ⟨newE, by rw [hj j hjne]; exact h1, h2,
          fun he => by rw [hj j hjne]; exact h3 he,
          fun hne => by rw [hj j hjne]; exact (h4 hne).1, fun pe hpe => ?_⟩
        have hne : newE ≠ [] := by
          intro he
          rw [he] at hpe
          exact absurd hpe (List.not_mem_nil pe)
        obtain ⟨_, _, n, hn1, _, hall⟩ := h4 hne
        exact ⟨n, hn1, hall pe hpe⟩
      · rw [htgt0] at hh
        refine ⟨_, hh, by simp, ?_, fun _ => hm, ?_⟩
        · intro he
          exact absurd he (by simp)
        · intro pe hpe
          simp only [List.mem_singleton] at hpe
          subst hpe
          exact ⟨_, hAuid, rfl⟩
  · rw [if_neg c3] at hstep2
    subst hstep2
    rcases advanceStep_cases uuid nowMs payment userNote tIdx (ests1, rem1, uid1) htlen with
      hadv | ⟨hl, hj, hh, hm⟩
    · rw [hadv] at hres
      subst hres
      refine ⟨rfl, fun j _ => ⟨[], by simp, by simp, fun _ => rfl,
        fun hne => absurd rfl hne, by simp⟩,
        ⟨[], by simp, by simp, fun _ => rfl, fun hne => absurd rfl hne, by simp⟩⟩
    · subst hres
      refine ⟨by rw [hl], fun j hjne => ⟨[], by rw [hj j hjne]; simp, by simp,
        fun _ => hj j hjne, fun hne => absurd rfl hne, by simp⟩, ?_⟩
      refine ⟨_, hh, by simp, ?_, fun _ => hm, ?_⟩
      · intro he
        exact absurd he (by simp)
      · intro pe hpe
        simp only [List.mem_singleton] at hpe
        subst hpe
        exact ⟨uid1, le_refl _, rfl⟩

/-- Helper: phase 1 preserves the list length unconditionally. -/
theorem payTargetStep_length (uuid : Nat → String) (nowMs : Nat)
    (estimates : List EstimateRecord) (targetIdx : Nat) (payment : PaymentEntry)
    (userNote : String) :
    (payTargetStep uuid nowMs estimates targetIdx payment userNote).1.length =
      estimates.length := by
  unfold payTargetStep
  by_cases c1 : (calculateDue (estimates.getD targetIdx default)).due > 0
  · by_cases c2 : min (calculateDue (estimates.getD targetIdx default)).due payment.amount > 0
    · simp only [c1, ite_true, c2]
      simp
    · simp only [c1, ite_true, c2, ite_false]
  · simp only [c1, ite_false]

/-- Helper: a list of at most one entry is trivially pairwise-distinct. -/
theorem pairwise_ne_of_le_one {l : List PaymentEntry} (h : l.length ≤ 1) :
    l.Pairwise (fun a b => a.id ≠ b.id) := by
  cases l with
  | nil => simp
  | cons a t =>
    cases t with
    | nil => simp
    | cons b u => simp at h

/-- C8 (amended): for every allocation call with an existing target, the
stored list keeps its length and each record gains only appended history
entries: at most one new entry for any record other than the target, and at
most two for the target — the second being the advance/credit entry of the
surplus case, which the original claim denied; every touched record's
`lastModified` is stamped with the call's `Date.now()`, untouched records
are bit-for-bit unchanged, every new entry's id comes from the
`crypto.randomUUID()` supply, and the new entries of any one record carry
distinct ids whenever that supply is injective. -/
theorem C8_per_record_amended (uuid : Nat → String) (nowMs : Nat)
    (ests : List EstimateRecord) (targetEstId : String) (payment : PaymentEntry)
    (hfound : ests.findIdx (fun e => decide (e.id = targetEstId)) < ests.length) :
    (addPaymentCore uuid nowMs ests targetEstId payment).length = ests.length ∧
    ∀ j : Nat, ∃ newE : List PaymentEntry,
      ((addPaymentCore uuid nowMs ests targetEstId payment).getD j
          default).paymentHistory.getD [] =
        (ests.getD j default).paymentHistory.getD [] ++ newE ∧
      (j ≠ ests.findIdx (fun e => decide (e.id = targetEstId)) → newE.length ≤ 1) ∧
      newE.length ≤ 2 ∧
      (newE = [] → (addPaymentCore uuid nowMs ests targetEstId payment).getD j default =
        ests.getD j default) ∧
      (newE ≠ [] →
        ((addPaymentCore uuid nowMs ests targetEstId payment).getD j
          default).lastModified = nowMs) ∧
      (∀ pe ∈ newE, ∃ n : Nat, pe.id = uuid n) ∧
      (Function.Injective uuid → newE.Pairwise (fun a b => a.id ≠ b.id)) := by
  have hcore : addPaymentCore uuid nowMs ests targetEstId payment =
      advanceStep uuid nowMs payment
        (if payment.note ≠ "" then payment.note ++ " - " else "")
        (ests.findIdx fun e => decide (e.id = targetEstId))
        (if (payTargetStep uuid nowMs ests
              (ests.findIdx fun e => decide (e.id = targetEstId)) payment
              (if payment.note ≠ "" then payment.note ++ " - " else "")).2.1 > 0 then
          applyToOthers uuid nowMs payment
            (if payment.note ≠ "" then payment.note ++ " - " else "")
            (ests.getD (ests.findIdx fun e => decide (e.id = targetEstId)) default).id
            (customerEstimatesIndices ests
              (getCustKey (ests.getD (ests.findIdx fun e => decide (e.id = targetEstId))
                default).customer))
            (payTargetStep uuid nowMs ests
              (ests.findIdx fun e => decide (e.id = targetEstId)) payment
              (if payment.note ≠ "" then payment.note ++ " - " else "")).1
            (payTargetStep uuid nowMs ests
              (ests.findIdx fun e => decide (e.id = targetEstId)) payment
              (if payment.note ≠ "" then payment.note ++ " - " else "")).2.1
            (payTargetStep uuid nowMs ests
              (ests.findIdx fun e => decide (e.id = targetEstId)) payment
              (if payment.note ≠ "" then payment.note ++ " - " else "")).2.2
        else payTargetStep uuid nowMs ests
          (ests.findIdx fun e => decide (e.id = targetEstId)) payment
          (if payment.note ≠ "" then payment.note ++ " - " else "")) := by
    unfold addPaymentCore
    simp only [hfound, ite_true]
  set tIdx := ests.findIdx fun e => decide (e.id = targetEstId) with hT
  set userNote := if payment.note ≠ "" then payment.note ++ " - " else "" with hUN
  set snaps := customerEstimatesIndices ests (getCustKey (ests.getD tIdx default).customer)
    with hS
  set step1 := payTargetStep uuid nowMs ests tIdx payment userNote with h1
  have hlen1 : step1.1.length = ests.length :=
    payTargetStep_length uuid nowMs ests tIdx payment userNote
  have hidxS : ∀ o ∈ snaps, o.originalIndex < step1.1.length := by
    rw [hlen1]
    intro o ho
    exact (mem_customerEstimatesIndices ho).1
  have hpwS : snaps.Pairwise (fun a b => a.originalIndex ≠ b.originalIndex) :=
    customerEstimatesIndices_pairwise ests _
  have htgtS : ∀ o ∈ snaps, o.originalIndex = tIdx →
      o.est.id = (ests.getD tIdx default).id := by
    intro o ho hoj
    have := (mem_customerEstimatesIndices ho).2.1
    rw [this, hoj]
  have htlen1 : tIdx < step1.1.length := by rw [hlen1]; exact hfound
  obtain ⟨hRlen, hRj, hRt⟩ := tailSteps_per_index uuid nowMs payment userNote
    (ests.getD tIdx default).id tIdx snaps step1.1 step1.2.1 step1.2.2
    (if step1.2.1 > 0 then
      applyToOthers uuid nowMs payment userNote (ests.getD tIdx default).id snaps
        step1.1 step1.2.1 step1.2.2
    else step1) rfl
    (addPaymentCore uuid nowMs ests targetEstId payment) hcore hidxS hpwS htgtS htlen1
  rcases payTargetStep_cases uuid nowMs ests tIdx payment userNote hfound with
    hP | ⟨hP1, hP2, hP3, hP4, hP5, hP6⟩
  · have hs1 : step1.1 = ests := by rw [h1, hP]
    refine ⟨by rw [hRlen, hs1], fun j => ?_⟩
    by_cases hj : j = tIdx
    · subst hj
      obtain ⟨E3, t1, t2, t3, t4, t5⟩ := hRt
      rw [hs1] at t1 t3
      refine ⟨E3, t1, fun hne => absurd rfl hne, by omega, t3, t4, ?_, ?_⟩
      · intro pe hpe
        obtain ⟨n, _, hn⟩ := t5 pe hpe
        exact ⟨n, hn⟩
      · intro _
        exact pairwise_ne_of_le_one t2
    · obtain ⟨newE, t1, t2, t3, t4, t5⟩ := hRj j hj
      rw [hs1] at t1 t3
      refine ⟨newE, t1, fun _ => t2, by omega, t3, t4, ?_, ?_⟩
      · intro pe hpe
        obtain ⟨n, _, hn⟩ := t5 pe hpe
        exact ⟨n, hn⟩
      · intro _
        exact pairwise_ne_of_le_one t2
  · refine ⟨by rw [hRlen, hlen1], fun j => ?_⟩
    by_cases hj : j = tIdx
    · subst hj
      obtain ⟨E3, t1, t2, t3, t4, t5⟩ := hRt
      rw [hP5] at t1
      rw [List.append_assoc] at t1
      refine ⟨_ :: E3, t1, fun hne => absurd rfl hne, by simp; omega, ?_, ?_, ?_, ?_⟩
      · intro he
        exact absurd he (by simp)
      · intro _
        rcases eq_or_ne E3 [] with he | he
        · rw [t3 he, hP6]
        · exact t4 he
      · intro pe hpe
        simp only [List.mem_cons] at hpe
        rcases hpe with rfl | hpe
        · exact ⟨0, rfl⟩
        · obtain ⟨n, _, hn⟩ := t5 pe hpe
          exact ⟨n, hn⟩
      · intro hinj
        refine List.Pairwise.cons ?_ (pairwise_ne_of_le_one t2)
        intro pe hpe
        obtain ⟨n, hn1, hn2⟩ := t5 pe hpe
        rw [hP2] at hn1
        simp only [hn2]
        intro hcontra
        have := hinj hcontra
        omega
    · obtain ⟨newE, t1, t2, t3, t4, t5⟩ := hRj j hj
      rw [hP4 j hj] at t1 t3
      refine ⟨newE, t1, fun _ => t2, by omega, t3, t4, ?_, ?_⟩
      · intro pe hpe
        obtain ⟨n, _, hn⟩ := t5 pe hpe
        exact ⟨n, hn⟩
      · intro _
        exact pairwise_ne_of_le_one t2

/-- C8 (counterexample): one confirmed invoice of due 10 paid 50 — the
surplus case.  The allocator appends TWO entries to the target record in a
single call (the 10 payment and the 40 advance/credit), refuting the claim
that no record, the target included, ever receives two or more entries in
one call. -/
theorem C8_counterexample :
    histAmounts ((addPaymentCore uuidFix 99 [paRec "T" (some "I1") 0 10] "T"
      { id := "p", amount := 50, date := "d", note := "" }).getD 0 default) = [10, 40] ∧
    histLen ((addPaymentCore uuidFix 99 [paRec "T" (some "I1") 0 10] "T"
      { id := "p", amount := 50, date := "d", note := "" }).getD 0 default) =
      histLen (paRec "T" (some "I1") 0 10) + 2 := by
  constructor <;>
    norm_num [addPaymentCore, payTargetStep, advanceStep, applyToOthers,
      customerEstimatesIndices, sortByDateAsc, insertByDate, calculateDue, getCustKey,
      jsOr, jsOrOpt, paRec, paItem, paCust, histAmounts, histLen, List.enum, List.enumFrom,
      List.foldl, List.findIdx, List.findIdx.go]

/-- C8 (witness): the amended per-record theorem applied to the concrete
surplus scenario (target due 10, payment 50). -/
theorem C8_per_record_amended_witness :
    (addPaymentCore uuidFix 99 [paRec "T" (some "I1") 0 10] "T"
      { id := "p", amount := 50, date := "d", note := "" }).length =
      ([paRec "T" (some "I1") 0 10] : List EstimateRecord).length ∧
    ∀ j : Nat, ∃ newE : List PaymentEntry,
      ((addPaymentCore uuidFix 99 [paRec "T" (some "I1") 0 10] "T"
          { id := "p", amount := 50, date := "d", note := "" }).getD j
          default).paymentHistory.getD [] =
        (([paRec "T" (some "I1") 0 10] : List EstimateRecord).getD j
          default).paymentHistory.getD [] ++ newE ∧
      (j ≠ ([paRec "T" (some "I1") 0 10] : List EstimateRecord).findIdx
          (fun e => decide (e.id = "T")) → newE.length ≤ 1) ∧
      newE.length ≤ 2 ∧
      (newE = [] → (addPaymentCore uuidFix 99 [paRec "T" (some "I1") 0 10] "T"
          { id := "p", amount := 50, date := "d", note := "" }).getD j default =
        ([paRec "T" (some "I1") 0 10] : List EstimateRecord).getD j default) ∧
      (newE ≠ [] →
        ((addPaymentCore uuidFix 99 [paRec "T" (some "I1") 0 10] "T"
          { id := "p", amount := 50, date := "d", note := "" }).getD j
          default).lastModified = 99) ∧
      (∀ pe ∈ newE, ∃ n : Nat, pe.id = uuidFix n) ∧
      (Function.Injective uuidFix → newE.Pairwise (fun a b => a.id ≠ b.id)) :=
  C8_per_record_amended uuidFix 99 [paRec "T" (some "I1") 0 10] "T"
    { id := "p", amount := 50, date := "d", note := "" } (by decide)

/-! ### C9: tolerance usage of the three due/paid comparisons -/

/-- C9 (amended): the paid-status tests and the other-invoice due gate use
the 1-unit tolerance, but the target due gate uses strict positivity
(`due > 0`), not the 1-unit tolerance.  The exact-match edge case holds
only for a target with no recorded payments (no history, empty cache):
such a target paying exactly its due ends `paid` for every positive due —
including dues at or below 1 unit, which a 1-unit-tolerance gate would have
skipped.  When the target's prior payments live only in the `amountPaid`
cache (no history), the first appended history entry discards the cache
from the paid computation, and an allocation exactly matching the due
leaves the target `partial` (instance: items total 10, cache 7, paying the
due of 3 records history [3] and ends `partial` since 3 < 10 - 1).  An
other invoice whose due is exactly 1 unit (within tolerance) is skipped
untouched even when ample amount remains. -/
theorem C9_tolerances_amended (d : ℚ) (hd : 0 < d) :
    ((addPaymentCore uuidFix 99 [paRec "T" (some "I1") 0 d] "T"
        { id := "p", amount := d, date := "x", note := "" }).getD 0 default).paymentStatus =
      PaymentStatus.paid ∧
    histAmounts ((addPaymentCore uuidFix 99 [paRec "T" (some "I1") 0 d] "T"
        { id := "p", amount := d, date := "x", note := "" }).getD 0 default) = [d] ∧
    (addPaymentCore uuidFix 99 [paRec "T" (some "I1") 0 5, paRec "E" (some "I2") 1 1] "T"
        { id := "p", amount := 10, date := "x", note := "" }).getD 1 default =
      paRec "E" (some "I2") 1 1 ∧
    ((addPaymentCore uuidFix 99 [paRecCached "T" (some "I1") 0 10 7] "T"
        { id := "p", amount := 3, date := "x", note := "" }).getD 0 default).paymentStatus =
      PaymentStatus.partiallyPaid ∧
    histAmounts ((addPaymentCore uuidFix 99 [paRecCached "T" (some "I1") 0 10 7] "T"
        { id := "p", amount := 3, date := "x", note := "" }).getD 0 default) = [3] := by
  refine ⟨?_, ?_, ?_, ?_, ?_⟩ <;>
    norm_num [addPaymentCore, payTargetStep, advanceStep, applyToOthers,
      customerEstimatesIndices, sortByDateAsc, insertByDate, calculateDue, getCustKey,
      jsOr, jsOrOpt, paRec, paRecCached, paItem, paCust, histAmounts, List.enum,
      List.enumFrom, List.foldl, List.findIdx, List.findIdx.go, hd]

/-- C9 (witness): the amended tolerance theorem applied at due 1/2 — a due
at half a unit, below the 1-unit tolerance, which the target gate still
collects (demonstrating the strict `due > 0` gate). -/
theorem C9_tolerances_amended_witness :
    ((addPaymentCore uuidFix 99 [paRec "T" (some "I1") 0 (1/2)] "T"
        { id := "p", amount := 1/2, date := "x", note := "" }).getD 0 default).paymentStatus =
      PaymentStatus.paid ∧
    histAmounts ((addPaymentCore uuidFix 99 [paRec "T" (some "I1") 0 (1/2)] "T"
        { id := "p", amount := 1/2, date := "x", note := "" }).getD 0 default) = [1/2] ∧
    (addPaymentCore uuidFix 99 [paRec "T" (some "I1") 0 5, paRec "E" (some "I2") 1 1] "T"
        { id := "p", amount := 10, date := "x", note := "" }).getD 1 default =
      paRec "E" (some "I2") 1 1 ∧
    ((addPaymentCore uuidFix 99 [paRecCached "T" (some "I1") 0 10 7] "T"
        { id := "p", amount := 3, date := "x", note := "" }).getD 0 default).paymentStatus =
      PaymentStatus.partiallyPaid ∧
    histAmounts ((addPaymentCore uuidFix 99 [paRecCached "T" (some "I1") 0 10 7] "T"
        { id := "p", amount := 3, date := "x", note := "" }).getD 0 default) = [3] :=
  C9_tolerances_amended (1/2) (by norm_num)

/-- C9 (counterexample): a target with due 1/2 — within the 1-unit
tolerance — still has its due collected by the target gate (the first
appended entry is the 1/2 payment, followed by the 19/2 advance), so the
target-due comparison uses the strict threshold `due > 0`, not the 1-unit
tolerance the claim asserts for all three comparisons. -/
theorem C9_counterexample :
    histAmounts ((addPaymentCore uuidFix 99 [paRec "T" (some "I1") 0 (1/2)] "T"
      { id := "p", amount := 10, date := "x", note := "" }).getD 0 default) = [1/2, 19/2] ∧
    ¬ ((1 : ℚ) < 1/2) := by
  constructor
  · norm_num [addPaymentCore, payTargetStep, advanceStep, applyToOthers,
      customerEstimatesIndices, sortByDateAsc, insertByDate, calculateDue, getCustKey,
      jsOr, jsOrOpt, paRec, paItem, paCust, histAmounts, List.enum, List.enumFrom,
      List.foldl, List.findIdx, List.findIdx.go]
  · norm_num

/-- Helper: full symbolic run of the oldest-first scenario.  With a target
of due `dt` (dated 0) and two other confirmed invoices of the same customer
with dues `d1` (dated 1, oldest debt) and `d2` (dated 2), a payment of
`dt + d1 + 1` pays the target in full, clears the older `d1` in full, books
the single remaining unit onto the newer `d2`, and leaves the
other-customer and draft records untouched. -/
theorem addPaymentCore_c7_run (dt d1 d2 : ℚ) (hdt : 0 < dt) (hd1 : 1 < d1) (hd2 : 2 < d2) :
    addPaymentCore uuidFix 99 (c7List dt d1 d2) "T" (c7Pay (dt + d1 + 1)) =
      [c7T' dt, c7E1' d1, c7E2' d2, paRecOther, paRecDraft] := by
  have hA : dt < dt + d1 + 1 := by linarith
  have hB : dt ≤ dt + d1 + 1 := by linarith
  have hC : d1 < d1 + 1 := by linarith
  have hD : d1 ≤ d1 + 1 := by linarith
  have hE : ¬ d2 < 1 := by linarith
  have hF : ¬ d2 ≤ 1 := by linarith
  have hG : ¬ d2 - 1 ≤ 1 := by linarith
  have hH : ¬ d2 ≤ 2 := by linarith
  have hI : (1 : ℚ) ≤ d2 := by linarith
  have hJ : (1 : ℚ) < d2 := by linarith
  have hd1p : (0 : ℚ) < d1 + 1 := by linarith
  have hfind : (c7List dt d1 d2).findIdx (fun e => decide (e.id = "T")) = 0 := by
    norm_num +decide [c7List, paRec, paRecOther, paRecDraft, List.findIdx, List.findIdx.go]
  have hsnaps : customerEstimatesIndices (c7List dt d1 d2) (getCustKey paCust) =
      [⟨paRec "T" (some "IT") 0 dt, 0⟩, ⟨paRec "E1" (some "I1") 1 d1, 1⟩,
       ⟨paRec "E2" (some "I2") 2 d2, 2⟩] := by
    norm_num +decide [customerEstimatesIndices, sortByDateAsc, insertByDate, c7List,
      paRecOther, paRecDraft, paRec, paItem, paCust, paCust2, getCustKey, jsOr, jsOrOpt,
      jsToLower, jsTrim, isWSChar, Char.toLower, List.enum, List.enumFrom, List.foldl]
  have hstep1 : payTargetStep uuidFix 99 (c7List dt d1 d2) 0 (c7Pay (dt + d1 + 1)) "" =
      ([c7T' dt, paRec "E1" (some "I1") 1 d1, paRec "E2" (some "I2") 2 d2,
        paRecOther, paRecDraft], d1 + 1, 1) := by
    norm_num +decide [payTargetStep, calculateDue, c7List, c7T', c7Pay, paRec, paItem,
      jsOrOpt, jsOr, List.foldl, hdt, hA, hB]
    ring
  have hloop : applyToOthers uuidFix 99 (c7Pay (dt + d1 + 1)) "" "T"
      [⟨paRec "T" (some "IT") 0 dt, 0⟩, ⟨paRec "E1" (some "I1") 1 d1, 1⟩,
       ⟨paRec "E2" (some "I2") 2 d2, 2⟩]
      [c7T' dt, paRec "E1" (some "I1") 1 d1, paRec "E2" (some "I2") 2 d2,
       paRecOther, paRecDraft] (d1 + 1) 1 =
      ([c7T' dt, c7E1' d1, c7E2' d2, paRecOther, paRecDraft], 0, 3) := by
    norm_num +decide [applyToOthers, calculateDue, c7E1', c7E2', c7Pay, paRec, paItem,
      jsOrOpt, jsOr, List.foldl, hd1, hC, hD, hE, hF, hG, hH, hI, hJ]
  unfold addPaymentCore
  rw [hfind]
  have hlen : 0 < (c7List dt d1 d2).length := by norm_num +decide [c7List]
  simp only [hlen, ite_true]
  have hgetD : (c7List dt d1 d2).getD 0 default = paRec "T" (some "IT") 0 dt := by
    norm_num +decide [c7List]
  rw [hgetD]
  have hkey : getCustKey (paRec "T" (some "IT") 0 dt).customer = getCustKey paCust := by
    norm_num +decide [paRec]
  rw [hkey, hsnaps]
  have hnote : (if (c7Pay (dt + d1 + 1)).note ≠ "" then (c7Pay (dt + d1 + 1)).note ++ " - "
      else "") = "" := by norm_num +decide [c7Pay]
  rw [hnote]
  rw [hstep1]
  have hid : (paRec "T" (some "IT") 0 dt).id = "T" := by norm_num +decide [paRec]
  rw [hid]
  simp only [hd1p, ite_true]
  rw [hloop]
  norm_num +decide [advanceStep]


/-- Helper: boundary instance of the oldest-first scenario — the newer
invoice's due 3/2 is above the 1-unit tolerance but at most 2 units, so the
single leftover unit is within the 1-unit paid tolerance and the invoice
ends `paid`. -/
theorem addPaymentCore_c7_boundary :
    ((addPaymentCore uuidFix 99 (c7List 4 3 (3/2)) "T" (c7Pay (4 + 3 + 1))).getD 2
        default).paymentStatus = PaymentStatus.paid := by
  norm_num +decide [addPaymentCore, payTargetStep, advanceStep, applyToOthers,
    customerEstimatesIndices, sortByDateAsc, insertByDate, calculateDue, getCustKey,
    jsOr, jsOrOpt, jsToLower, jsTrim, isWSChar, Char.toLower, c7List, c7Pay,
    paRec, paItem, paCust, paCust2, paRecOther, paRecDraft,
    List.enum, List.enumFrom, List.foldl, List.findIdx, List.findIdx.go]

/-- Helper: skip instance of the oldest-first scenario — the newer
invoice's due 1/2 is within the 1-unit tolerance, so the `due > 1` loop
gate skips it entirely (left untouched, hence `unpaid` with no entry) and
the leftover unit is booked back onto the target as an advance (target
history [4, 1]). -/
theorem addPaymentCore_c7_skip :
    (addPaymentCore uuidFix 99 (c7List 4 3 (1/2)) "T" (c7Pay (4 + 3 + 1))).getD 2
        default = paRec "E2" (some "I2") 2 (1/2) ∧
    histAmounts ((addPaymentCore uuidFix 99 (c7List 4 3 (1/2)) "T"
        (c7Pay (4 + 3 + 1))).getD 0 default) = [4, 1] := by
  constructor <;>
    norm_num +decide [addPaymentCore, payTargetStep, advanceStep, applyToOthers,
      customerEstimatesIndices, sortByDateAsc, insertByDate, calculateDue, getCustKey,
      jsOr, jsOrOpt, jsToLower, jsTrim, isWSChar, Char.toLower, c7List, c7Pay,
      paRec, paItem, paCust, paCust2, paRecOther, paRecDraft, histAmounts,
      List.enum, List.enumFrom, List.foldl, List.findIdx, List.findIdx.go]

/-! ### C7: oldest-first allocation across the customer's invoices -/

/-- C7 (amended): the remainder after paying the target is applied only to
other confirmed records with the target's customer-identity key, oldest
date first, each while its due exceeds the 1-unit tolerance.  With two such
invoices with dues on dates D1 < D2, both dues above the 1-unit tolerance,
a payment covering target-due plus D1-due plus 1 unit leaves D1 `paid`, and
leaves D2 `partial` provided D2's due exceeds 2 units.  At the boundaries
the original claim fails: with D2's due above the tolerance but at most 2
units (instance: due 3/2) the single applied unit is within the 1-unit paid
tolerance and D2 ends `paid`; with D2's due within the tolerance (instance:
due 1/2) the loop skips D2 — left untouched and `unpaid` — and the leftover
unit is booked as an advance on the target.  Records of other customers and
draft records are never touched. -/
theorem C7_oldest_first_amended (dt d1 d2 : ℚ) (hdt : 0 < dt) (hd1 : 1 < d1) (hd2 : 2 < d2) :
    addPaymentCore uuidFix 99 (c7List dt d1 d2) "T" (c7Pay (dt + d1 + 1)) =
      [c7T' dt, c7E1' d1, c7E2' d2, paRecOther, paRecDraft] ∧
    (c7E1' d1).paymentStatus = PaymentStatus.paid ∧
    (c7E1' d1).amountPaid = some d1 ∧
    (c7E2' d2).paymentStatus = PaymentStatus.partiallyPaid ∧
    (c7E2' d2).amountPaid = some 1 ∧
    (c7T' dt).paymentStatus = PaymentStatus.paid ∧
    ((addPaymentCore uuidFix 99 (c7List 4 3 (3/2)) "T" (c7Pay (4 + 3 + 1))).getD 2
        default).paymentStatus = PaymentStatus.paid ∧
    (addPaymentCore uuidFix 99 (c7List 4 3 (1/2)) "T" (c7Pay (4 + 3 + 1))).getD 2
        default = paRec "E2" (some "I2") 2 (1/2) ∧
    histAmounts ((addPaymentCore uuidFix 99 (c7List 4 3 (1/2)) "T"
        (c7Pay (4 + 3 + 1))).getD 0 default) = [4, 1] ∧
    (paRec "E2" (some "I2") 2 (1/2)).paymentStatus = PaymentStatus.unpaid ∧
    histLen (paRec "E2" (some "I2") 2 (1/2)) = 0 :=
  ⟨addPaymentCore_c7_run dt d1 d2 hdt hd1 hd2, rfl, rfl, rfl, rfl, rfl,
   addPaymentCore_c7_boundary, addPaymentCore_c7_skip.1, addPaymentCore_c7_skip.2,
   rfl, rfl⟩

/-- C7 (witness): the amended oldest-first theorem applied at concrete dues
(target 4, D1 3, D2 5; payment 8). -/
theorem C7_oldest_first_amended_witness :
    addPaymentCore uuidFix 99 (c7List 4 3 5) "T" (c7Pay (4 + 3 + 1)) =
      [c7T' 4, c7E1' 3, c7E2' 5, paRecOther, paRecDraft] ∧
    (c7E1' 3).paymentStatus = PaymentStatus.paid ∧
    (c7E1' 3).amountPaid = some 3 ∧
    (c7E2' 5).paymentStatus = PaymentStatus.partiallyPaid ∧
    (c7E2' 5).amountPaid = some 1 ∧
    (c7T' 4).paymentStatus = PaymentStatus.paid ∧
    ((addPaymentCore uuidFix 99 (c7List 4 3 (3/2)) "T" (c7Pay (4 + 3 + 1))).getD 2
        default).paymentStatus = PaymentStatus.paid ∧
    (addPaymentCore uuidFix 99 (c7List 4 3 (1/2)) "T" (c7Pay (4 + 3 + 1))).getD 2
        default = paRec "E2" (some "I2") 2 (1/2) ∧
    histAmounts ((addPaymentCore uuidFix 99 (c7List 4 3 (1/2)) "T"
        (c7Pay (4 + 3 + 1))).getD 0 default) = [4, 1] ∧
    (paRec "E2" (some "I2") 2 (1/2)).paymentStatus = PaymentStatus.unpaid ∧
    histLen (paRec "E2" (some "I2") 2 (1/2)) = 0 :=
  C7_oldest_first_amended 4 3 5 (by norm_num) (by norm_num) (by norm_num)

/-- C7 (counterexample): target due 4, D1 due 3 (dated earlier), D2 due 2
(dated later), payment 4 + 3 + 1 — exactly the claim's configuration.  The
single remaining unit lands on D2 whose due of 2 is within the 1-unit paid
tolerance of the applied unit, so the code marks D2 `paid`, refuting the
claim that D2 is always left `partial` or `unpaid`. -/
theorem C7_counterexample :
    ((addPaymentCore uuidFix 99 (c7List 4 3 2) "T" (c7Pay (4 + 3 + 1))).getD 2
        default).paymentStatus = PaymentStatus.paid ∧
    ¬ (((addPaymentCore uuidFix 99 (c7List 4 3 2) "T" (c7Pay (4 + 3 + 1))).getD 2
        default).paymentStatus = PaymentStatus.partiallyPaid ∨
      ((addPaymentCore uuidFix 99 (c7List 4 3 2) "T" (c7Pay (4 + 3 + 1))).getD 2
        default).paymentStatus = PaymentStatus.unpaid) := by
  have hrun : ((addPaymentCore uuidFix 99 (c7List 4 3 2) "T" (c7Pay (4 + 3 + 1))).getD 2
      default).paymentStatus = PaymentStatus.paid := by
    norm_num +decide [addPaymentCore, payTargetStep, advanceStep, applyToOthers,
      customerEstimatesIndices, sortByDateAsc, insertByDate, calculateDue, getCustKey,
      jsOr, jsOrOpt, jsToLower, jsTrim, isWSChar, Char.toLower, c7List, c7Pay,
      paRec, paItem, paCust, paCust2, paRecOther, paRecDraft,
      List.enum, List.enumFrom, List.foldl, List.findIdx, List.findIdx.go]
  refine ⟨hrun, ?_⟩
  rw [hrun]
  intro h
  rcases h with h | h <;> cases h
